import Mathlib

/-!
Verification development for the AstroForge coordinate / orbital-element
transformation engine.  The numerical core (`astroforge.coordinates`) is
modelled over the real numbers: rotations, geodetic geometry, Keplerian
element conversions and the iterative Kepler-equation solver, together with
theorems for the round-trip, convergence, and error-handling properties.
-/

namespace AstroForge

noncomputable section

open Real

/-- Error kinds of the engine: `domainErr` for inputs outside the
mathematically valid range, `convergenceErr` for an iterative solver that
exceeded its iteration cap, `invalidFrame` for a bad frame tag. -/
inductive AFErr where
  | domainErr
  | convergenceErr
  | invalidFrame
deriving DecidableEq

/-- Equatorial Earth radius in km (source: `astroforge.constants`). -/
def R_earth : ℝ := 6378.137

/-- Gravitational parameter of Earth in km^3/s^2 (source: `astroforge.constants`). -/
def GM : ℝ := 398600.4418

/-- Rotation rate of the Earth in rad/s (source: `astroforge.constants`). -/
def Omega : ℝ := 7.292115147019296e-5

/-- Modelled from the spec: flattening of the reference ellipsoid
(GeodeticConverter, §4.3: "flattening derived from J2 or supplied
directly"); the WGS84 value is used. -/
def flat : ℝ := 1 / 298.257223563

/-- First eccentricity squared of the reference ellipsoid. -/
def e2g : ℝ := flat * (2 - flat)

/-- Default absolute tolerance of the Kepler-equation solver (spec §4.4). -/
def default_tol : ℝ := 1e-14

/-- Default iteration cap of the Kepler-equation solver (spec §4.4). -/
def default_max_iter : ℕ := 100

/-- Default tolerance of the geodetic latitude solve, km. -/
def geo_tol : ℝ := 1e-9

/-- A 3-vector of real components (km or km/s). -/
structure Vec3 where
  x : ℝ
  y : ℝ
  z : ℝ

/-- Difference of two vectors. -/
def Vec3.sub (a b : Vec3) : Vec3 := ⟨a.x - b.x, a.y - b.y, a.z - b.z⟩

/-- Scalar multiple of a vector. -/
def Vec3.smul (k : ℝ) (a : Vec3) : Vec3 := ⟨k * a.x, k * a.y, k * a.z⟩

/-- Dot product. -/
def Vec3.dot (a b : Vec3) : ℝ := a.x * b.x + a.y * b.y + a.z * b.z

/-- Cross product. -/
def Vec3.cross (a b : Vec3) : Vec3 :=
  ⟨a.y * b.z - a.z * b.y, a.z * b.x - a.x * b.z, a.x * b.y - a.y * b.x⟩

/-- Euclidean norm. -/
def Vec3.norm (a : Vec3) : ℝ := Real.sqrt (Vec3.dot a a)

/-- Two-argument arctangent, with the convention `atan2 0 0 = 0`, realized
as the principal argument of the complex number `x + y i` (range `(-π, π]`). -/
def atan2 (y x : ℝ) : ℝ := Complex.arg ⟨x, y⟩

/-- Normalization of an angle from `(-π, π]` into the range `[0, 2π)`. -/
def posAngle (t : ℝ) : ℝ := if t < 0 then t + 2 * π else t

/-- Radians to degrees. -/
def deg_of_rad (t : ℝ) : ℝ := t * 180 / π

/-- Degrees to radians. -/
def rad_of_deg (d : ℝ) : ℝ := d * π / 180

/-- Modelled from the spec: Greenwich Mean Sidereal Time (EarthOrientationModel,
§4.1), an affine engineering-grade Earth-rotation angle in radians as a
function of the epoch in MJD; the rate is the tabulated Earth rotation rate. -/
def gmst (mjd : ℝ) : ℝ := 4.894961212823756 + 86400 * Omega * (mjd - 51544.5)

/-- Modelled from the spec: ITRS → MEMED position transformation
(FrameTransformer, §4.2), a pure rotation about the polar axis by the
Earth-rotation angle at the epoch (the source notebook shows the z component
unchanged by this frame pair). -/
def ITRSToMEMED (mjd : ℝ) (r : Vec3) : Vec3 :=
  ⟨cos (gmst mjd) * r.x - sin (gmst mjd) * r.y,
   sin (gmst mjd) * r.x + cos (gmst mjd) * r.y,
   r.z⟩

/-- Modelled from the spec: MEMED → ITRS position transformation, the
transpose (inverse) rotation of `ITRSToMEMED`. -/
def MEMEDToITRS (mjd : ℝ) (r : Vec3) : Vec3 :=
  ⟨cos (gmst mjd) * r.x + sin (gmst mjd) * r.y,
   -sin (gmst mjd) * r.x + cos (gmst mjd) * r.y,
   r.z⟩

/-- Modelled from the spec: ITRS → MEMED velocity transformation, the rotated
velocity plus the angular-velocity cross term of the rotating frame (§4.2). -/
def ITRSToMEMEDVel (mjd : ℝ) (r v : Vec3) : Vec3 :=
  ⟨Omega * (-(sin (gmst mjd)) * r.x - cos (gmst mjd) * r.y)
     + cos (gmst mjd) * v.x - sin (gmst mjd) * v.y,
   Omega * (cos (gmst mjd) * r.x - sin (gmst mjd) * r.y)
     + sin (gmst mjd) * v.x + cos (gmst mjd) * v.y,
   v.z⟩

/-- Modelled from the spec: MEMED → ITRS velocity transformation, inverse of
`ITRSToMEMEDVel`. -/
def MEMEDToITRSVel (mjd : ℝ) (r v : Vec3) : Vec3 :=
  ⟨Omega * (-(sin (gmst mjd)) * r.x + cos (gmst mjd) * r.y)
     + cos (gmst mjd) * v.x + sin (gmst mjd) * v.y,
   Omega * (-(cos (gmst mjd)) * r.x - sin (gmst mjd) * r.y)
     - sin (gmst mjd) * v.x + cos (gmst mjd) * v.y,
   v.z⟩

/-- Bracketed bisection root finder with an absolute residual tolerance and an
iteration cap (fuel).  Returns the midpoint once the residual meets the
tolerance, and `convergenceErr` when the fuel is exhausted. -/
def bisect (f : ℝ → ℝ) (tol : ℝ) : ℕ → ℝ → ℝ → Except AFErr ℝ
  | 0, _, _ => .error .convergenceErr
  | n + 1, lo, hi =>
    if |f ((lo + hi) / 2)| ≤ tol then .ok ((lo + hi) / 2)
    else if f ((lo + hi) / 2) < 0 then bisect f tol n ((lo + hi) / 2) hi
    else bisect f tol n lo ((lo + hi) / 2)

/-- Residual of Kepler's equation `M = E - e sin E`. -/
def keplerRes (e M E : ℝ) : ℝ := E - e * sin E - M

/-- Modelled from the spec: the iterative Kepler-equation solver `E_from_M`
(AnomalySolver, §4.4) with configurable absolute tolerance and iteration cap.
The spec fixes the interface, the domain guard (`DomainError` outside
`0 ≤ e < 1`), and the stopping behavior, but not the particular root-finding
step ("e.g., Newton-Raphson"); it is modelled by bracketed bisection on the
interval `[M - e, M + e]` that always contains the eccentric anomaly. -/
def E_from_M (e M tol : ℝ) (maxIter : ℕ) : Except AFErr ℝ :=
  if e < 0 ∨ 1 ≤ e then .error .domainErr
  else bisect (keplerRes e M) tol maxIter (M - e) (M + e)

/-- Closed-form true anomaly from eccentric anomaly (elliptical case),
normalized to `[0, 2π)`. -/
def nu_from_E_core (e E : ℝ) : ℝ :=
  posAngle (atan2 (Real.sqrt (1 - e ^ 2) * sin E) (cos E - e))

/-- Closed-form eccentric anomaly from true anomaly (elliptical case),
normalized to `[0, 2π)`. -/
def E_from_nu_core (e v : ℝ) : ℝ :=
  posAngle (atan2 (Real.sqrt (1 - e ^ 2) * sin v) (cos v + e))

/-- Mean anomaly from eccentric anomaly via Kepler's equation, normalized
to `[0, 2π)`. -/
def M_from_E_core (e E : ℝ) : ℝ := posAngle (E - e * sin E)

/-- Modelled from the spec: `true_anomaly_from_eccentric_anomaly`, with the
elliptical-only domain guard. -/
def true_anomaly_from_eccentric_anomaly (e E : ℝ) : Except AFErr ℝ :=
  if e < 0 ∨ 1 ≤ e then .error .domainErr else .ok (nu_from_E_core e E)

/-- Modelled from the spec: `eccentric_anomaly_from_true_anomaly`, with the
elliptical-only domain guard. -/
def eccentric_anomaly_from_true_anomaly (e v : ℝ) : Except AFErr ℝ :=
  if e < 0 ∨ 1 ≤ e then .error .domainErr else .ok (E_from_nu_core e v)

/-- Modelled from the spec: `mean_anomaly_from_true_anomaly`, composed from
the closed forms, with the elliptical-only domain guard. -/
def mean_anomaly_from_true_anomaly (e v : ℝ) : Except AFErr ℝ :=
  if e < 0 ∨ 1 ≤ e then .error .domainErr
  else .ok (M_from_E_core e (E_from_nu_core e v))

/-- Modelled from the spec: `true_anomaly_from_mean_anomaly`, the Kepler
solver followed by the closed-form conversion. -/
def true_anomaly_from_mean_anomaly (e M tol : ℝ) (maxIter : ℕ) : Except AFErr ℝ :=
  match E_from_M e M tol maxIter with
  | .error err => .error err
  | .ok E => .ok (nu_from_E_core e E)

/-- Elementary rotation of a vector about the x-axis. -/
def rot1 (t : ℝ) (a : Vec3) : Vec3 :=
  ⟨a.x, cos t * a.y - sin t * a.z, sin t * a.y + cos t * a.z⟩

/-- Elementary rotation of a vector about the z-axis. -/
def rot3 (t : ℝ) (a : Vec3) : Vec3 :=
  ⟨cos t * a.x - sin t * a.y, sin t * a.x + cos t * a.y, a.z⟩

/-- Perifocal-to-inertial rotation: RAAN about z, inclination about x,
argument of periapsis about z, in the standard order (spec §4.5). -/
def pqw_to_inertial (raan incl argp : ℝ) (a : Vec3) : Vec3 :=
  rot3 raan (rot1 incl (rot3 argp a))

/-- Modelled from the spec: `keplerian_to_cartesian` (KeplerianCartesianConverter,
§4.5): perifocal position/velocity from `a`, `e` and the true anomaly derived
via the AnomalySolver, rotated into the inertial frame by the three elementary
rotations; degenerate circular/equatorial angles are used exactly as supplied. -/
def keplerian_to_cartesian (inclination_rad raan_rad argp_rad ecc semi_major_axis_km
    mean_anomaly_rad tol : ℝ) (maxIter : ℕ) : Except AFErr (Vec3 × Vec3) :=
  match E_from_M ecc mean_anomaly_rad tol maxIter with
  | .error err => .error err
  | .ok E =>
    let v := nu_from_E_core ecc E
    let p := semi_major_axis_km * (1 - ecc ^ 2)
    let rmag := p / (1 + ecc * cos v)
    .ok (pqw_to_inertial raan_rad inclination_rad argp_rad ⟨rmag * cos v, rmag * sin v, 0⟩,
         pqw_to_inertial raan_rad inclination_rad argp_rad
           ⟨-(Real.sqrt (GM / p)) * sin v, Real.sqrt (GM / p) * (ecc + cos v), 0⟩)

/-- The Keplerian element set returned by `cartesian_to_keplerian`
(fields as in the source notebook's result dictionary). -/
structure KeplerianElements where
  inclination_rad : ℝ
  raan_rad : ℝ
  argp_rad : ℝ
  eccentricity : ℝ
  semi_major_axis_km : ℝ
  eccentric_anomaly_rad : ℝ
  true_anomaly_rad : ℝ
  mean_anomaly_rad : ℝ

/-- Eccentricity vector of a position/velocity pair. -/
def eVecOf (pos vel : Vec3) : Vec3 :=
  Vec3.smul (1 / GM)
    (Vec3.sub (Vec3.smul (Vec3.dot vel vel - GM / Vec3.norm pos) pos)
      (Vec3.smul (Vec3.dot pos vel) vel))

/-- Modelled from the spec: `cartesian_to_keplerian` (§4.5): specific angular
momentum and eccentricity vectors, semi-major axis from the specific energy,
inclination from the angular-momentum direction, RAAN and argument of periapsis
from the node vector, anomalies via the closed forms; a degenerate
(zero-angular-momentum) or unbound (`e ≥ 1`) pair fails with `domainErr`. -/
def cartesian_to_keplerian (pos vel : Vec3) : Except AFErr KeplerianElements :=
  let h := Vec3.cross pos vel
  if Vec3.norm h = 0 then .error .domainErr
  else
    let ev := eVecOf pos vel
    let ecc := Vec3.norm ev
    if 1 ≤ ecc then .error .domainErr
    else
      let sma := -GM / (2 * (Vec3.dot vel vel / 2 - GM / Vec3.norm pos))
      let incl := Real.arccos (h.z / Vec3.norm h)
      let raan := posAngle (atan2 h.x (-h.y))
      let cosw := Vec3.dot ⟨-h.y, h.x, 0⟩ ev / (Vec3.norm ⟨-h.y, h.x, 0⟩ * ecc)
      let argp := if 0 ≤ ev.z then Real.arccos cosw else 2 * π - Real.arccos cosw
      let cosv := Vec3.dot ev pos / (ecc * Vec3.norm pos)
      let tru := if 0 ≤ Vec3.dot pos vel then Real.arccos cosv else 2 * π - Real.arccos cosv
      let Efin := E_from_nu_core ecc tru
      .ok ⟨incl, raan, argp, ecc, sma, Efin, tru, M_from_E_core ecc Efin⟩

/-- Prime-vertical radius of curvature of the reference ellipsoid at a
geodetic latitude. -/
def nRad (lat : ℝ) : ℝ := R_earth / Real.sqrt (1 - e2g * sin lat ^ 2)

/-- Geodetic-to-Cartesian closed form in radians (spec §4.3). -/
def geoFwdRad (lat lon alt : ℝ) : Vec3 :=
  ⟨(nRad lat + alt) * cos lat * cos lon,
   (nRad lat + alt) * cos lat * sin lon,
   (nRad lat * (1 - e2g) + alt) * sin lat⟩

/-- Modelled from the spec: `LatLonAltToITRS` (GeodeticConverter, §4.3), the
exact closed-form ellipsoidal-to-Cartesian mapping, in degrees and km. -/
def LatLonAltToITRS (lat_deg lon_deg alt_km : ℝ) : Vec3 :=
  geoFwdRad (rad_of_deg lat_deg) (rad_of_deg lon_deg) alt_km

/-- Defining residual of the geodetic latitude: with altitude eliminated via
`alt = ρ / cos lat - N(lat)`, the reconstructed z coordinate minus the input. -/
def geoResidual (rho zc lat : ℝ) : ℝ := rho * tan lat - e2g * nRad lat * sin lat - zc

/-- Lower end of the latitude bracket. -/
def geoLo (rho zc : ℝ) : ℝ := arctan ((zc - R_earth) / rho)

/-- Upper end of the latitude bracket. -/
def geoHi (rho zc : ℝ) : ℝ := arctan ((zc + R_earth) / rho)

/-- A Lipschitz bound for `geoResidual rho zc` on the latitude bracket. -/
def geoLip (rho zc : ℝ) : ℝ := rho * (1 + ((|zc| + R_earth) / rho) ^ 2) + 2 * R_earth

/-- Iteration budget for the geodetic latitude solve, sufficient for the
bisection to reach the requested tolerance. -/
def geoFuel (rho zc tol : ℝ) : ℕ := Nat.ceil (Real.logb 2 (geoLip rho zc * π / tol)) + 1

/-- Modelled from the spec: `ITRSToLatLonAlt` (GeodeticConverter, §4.3):
longitude from `atan2` (0 at the polar singularity), geodetic latitude by
iterative root-finding on the defining equation of the reference ellipsoid
(the spec names the method only as "iterative or closed-form", with a
sub-meter accuracy guarantee realized here by the residual stopping rule),
altitude from the prime-vertical radius; the geocenter fails with `domainErr`.
Outputs are latitude and longitude in degrees and altitude in km. -/
def ITRSToLatLonAlt (r : Vec3) (tol : ℝ) : Except AFErr (ℝ × ℝ × ℝ) :=
  if r.x = 0 ∧ r.y = 0 ∧ r.z = 0 then .error .domainErr
  else
    let rho := Real.sqrt (r.x ^ 2 + r.y ^ 2)
    let lon := atan2 r.y r.x
    if rho = 0 then
      let lat := if 0 ≤ r.z then π / 2 else -(π / 2)
      .ok (deg_of_rad lat, deg_of_rad lon, |r.z| - R_earth * Real.sqrt (1 - e2g))
    else
      match bisect (geoResidual rho r.z) tol (geoFuel rho r.z tol) (geoLo rho r.z) (geoHi rho r.z) with
      | .error err => .error err
      | .ok lat => .ok (deg_of_rad lat, deg_of_rad lon, rho / cos lat - nRad lat)

theorem Vec3.ext3 (a b : Vec3) (hx : a.x = b.x) (hy : a.y = b.y) (hz : a.z = b.z) : a = b := by
  cases a
  cases b
  simp_all

theorem Vec3.norm_zero : Vec3.norm ⟨0, 0, 0⟩ = 0 := by
  simp [Vec3.norm, Vec3.dot]

theorem Vec3.sub_self (a : Vec3) : Vec3.sub a a = ⟨0, 0, 0⟩ := by
  simp [Vec3.sub]

/-- C1: converting a state vector (position and velocity) from ITRS to MEMED at
any epoch and back reproduces the original exactly, hence within 1e-6 km in
position and 1e-9 km/s in velocity; in particular this holds at epoch
MJD 60197.5 for the ITRS position (-5413.11749016, 4960.20830485, 3177.18312508). -/
theorem frame_roundtrip_itrs_memed (mjd : ℝ) (r v : Vec3) :
    MEMEDToITRS mjd (ITRSToMEMED mjd r) = r ∧
    ITRSToMEMED mjd (MEMEDToITRS mjd r) = r ∧
    MEMEDToITRSVel mjd (ITRSToMEMED mjd r) (ITRSToMEMEDVel mjd r v) = v ∧
    Vec3.norm (Vec3.sub (MEMEDToITRS mjd (ITRSToMEMED mjd r)) r) ≤ 1e-6 ∧
    Vec3.norm (Vec3.sub (MEMEDToITRSVel mjd (ITRSToMEMED mjd r) (ITRSToMEMEDVel mjd r v)) v) ≤ 1e-9 ∧
    MEMEDToITRS 60197.5 (ITRSToMEMED 60197.5 ⟨-5413.11749016, 4960.20830485, 3177.18312508⟩) =
      ⟨-5413.11749016, 4960.20830485, 3177.18312508⟩ := by
  have key : ∀ t : ℝ, ∀ a b : Vec3, MEMEDToITRS t (ITRSToMEMED t a) = a ∧
      MEMEDToITRSVel t (ITRSToMEMED t a) (ITRSToMEMEDVel t a b) = b := by
    intro t a b
    have h := sin_sq_add_cos_sq (gmst t)
    constructor
    · apply Vec3.ext3 <;> simp only [MEMEDToITRS, ITRSToMEMED]
      · linear_combination a.x * h
      · linear_combination a.y * h
    · apply Vec3.ext3 <;> simp only [MEMEDToITRSVel, ITRSToMEMED, ITRSToMEMEDVel]
      · linear_combination b.x * h
      · linear_combination b.y * h
  have h2 : ITRSToMEMED mjd (MEMEDToITRS mjd r) = r := by
    have h := sin_sq_add_cos_sq (gmst mjd)
    apply Vec3.ext3 <;> simp only [MEMEDToITRS, ITRSToMEMED]
    · linear_combination r.x * h
    · linear_combination r.y * h
  refine ⟨(key mjd r v).1, h2, (key mjd r v).2, ?_, ?_, (key 60197.5 _ v).1⟩
  · rw [(key mjd r v).1, Vec3.sub_self, Vec3.norm_zero]
    norm_num
  · rw [(key mjd r v).2, Vec3.sub_self, Vec3.norm_zero]
    norm_num

/-- C10: the ITRS↔MEMED transformation is a pure rotation about the polar
axis: for every epoch and vector it preserves the z component and the
Euclidean norm exactly, in both directions. -/
theorem itrs_memed_pure_polar_rotation (mjd : ℝ) (r : Vec3) :
    (ITRSToMEMED mjd r).z = r.z ∧ (MEMEDToITRS mjd r).z = r.z ∧
    Vec3.norm (ITRSToMEMED mjd r) = Vec3.norm r ∧
    Vec3.norm (MEMEDToITRS mjd r) = Vec3.norm r := by
  have h := sin_sq_add_cos_sq (gmst mjd)
  refine ⟨rfl, rfl, ?_, ?_⟩
  · unfold Vec3.norm
    congr 1
    simp only [ITRSToMEMED, Vec3.dot]
    linear_combination (r.x ^ 2 + r.y ^ 2) * h
  · unfold Vec3.norm
    congr 1
    simp only [MEMEDToITRS, Vec3.dot]
    linear_combination (r.x ^ 2 + r.y ^ 2) * h

theorem abs_sin_sub_sin (a b : ℝ) : |sin b - sin a| ≤ |b - a| := by
  rw [Real.sin_sub_sin]
  have h1 : |sin ((b - a) / 2)| ≤ |(b - a) / 2| := Real.abs_sin_le_abs
  have h2 : |cos ((b + a) / 2)| ≤ 1 := Real.abs_cos_le_one _
  have h3 : 0 ≤ |sin ((b - a) / 2)| := abs_nonneg _
  have h4 : 0 ≤ |(b - a) / 2| := abs_nonneg _
  have h5 : |b - a| = 2 * |(b - a) / 2| := by
    rw [abs_div, abs_two]
    ring
  calc |2 * sin ((b - a) / 2) * cos ((b + a) / 2)|
      = 2 * |sin ((b - a) / 2)| * |cos ((b + a) / 2)| := by rw [abs_mul, abs_mul, abs_two]
    _ ≤ |b - a| := by nlinarith


/-- Degree-7 Taylor enclosure of `sin` on `[-1, 1]`, from the complex
exponential series remainder. -/
theorem sin_taylor (x : ℝ) (hx : |x| ≤ 1) :
    |Real.sin x - (x - x ^ 3 / 6 + x ^ 5 / 120 - x ^ 7 / 5040)| ≤ |x| ^ 9 * (1 / 326592) := by
  have hb1 : Complex.abs (Complex.exp (x * Complex.I)
      - ∑ m ∈ Finset.range 9, (x * Complex.I) ^ m / m.factorial)
      ≤ Complex.abs (x * Complex.I) ^ 9 * ((Nat.succ 9 : ℝ)
        * ((Nat.factorial 9 : ℝ) * (9 : ℕ) : ℝ)⁻¹) := by
    exact Complex.exp_bound (by simpa) (by norm_num)
  have hb2 : Complex.abs (Complex.exp (-x * Complex.I)
      - ∑ m ∈ Finset.range 9, (-x * Complex.I) ^ m / m.factorial)
      ≤ Complex.abs (-x * Complex.I) ^ 9 * ((Nat.succ 9 : ℝ)
        * ((Nat.factorial 9 : ℝ) * (9 : ℕ) : ℝ)⁻¹) := by
    exact Complex.exp_bound (by simpa) (by norm_num)
  have hid : ((Real.sin x - (x - x ^ 3 / 6 + x ^ 5 / 120 - x ^ 7 / 5040) : ℝ) : ℂ)
      = ((Complex.exp (-x * Complex.I)
            - ∑ m ∈ Finset.range 9, (-x * Complex.I) ^ m / m.factorial)
          - (Complex.exp (x * Complex.I)
            - ∑ m ∈ Finset.range 9, (x * Complex.I) ^ m / m.factorial)) * Complex.I / 2 := by
    simp only [Finset.sum_range_succ, Finset.sum_range_zero, Complex.ofReal_sub,
      Complex.ofReal_add, Complex.ofReal_div, Complex.ofReal_pow, Complex.ofReal_ofNat,
      Complex.ofReal_sin]
    rw [Complex.sin]
    apply Complex.ext <;>
      simp [Nat.factorial, div_eq_mul_inv, pow_succ, Complex.mul_re, Complex.mul_im,
        Complex.I_re, Complex.I_im, Complex.ofReal_re, Complex.ofReal_im,
        Complex.add_re, Complex.add_im, Complex.sub_re, Complex.sub_im,
        Complex.neg_re, Complex.neg_im] <;>
      ring
  have hA : Complex.abs (x * Complex.I) = |x| := by
    rw [map_mul, Complex.abs_I, Complex.abs_ofReal, mul_one]
  have hB : Complex.abs (-x * Complex.I) = |x| := by
    rw [map_mul, Complex.abs_I, mul_one, ← Complex.ofReal_neg, Complex.abs_ofReal, abs_neg]
  have htri : Complex.abs ((Complex.exp (-x * Complex.I)
        - ∑ m ∈ Finset.range 9, (-x * Complex.I) ^ m / m.factorial)
      - (Complex.exp (x * Complex.I)
        - ∑ m ∈ Finset.range 9, (x * Complex.I) ^ m / m.factorial))
      ≤ Complex.abs (Complex.exp (-x * Complex.I)
          - ∑ m ∈ Finset.range 9, (-x * Complex.I) ^ m / m.factorial)
        + Complex.abs (Complex.exp (x * Complex.I)
          - ∑ m ∈ Finset.range 9, (x * Complex.I) ^ m / m.factorial) :=
    AbsoluteValue.sub_le_add _ _ _
  rw [hA] at hb1
  rw [hB] at hb2
  have h9 : ((Nat.succ 9 : ℝ) * ((Nat.factorial 9 : ℝ) * (9 : ℕ) : ℝ)⁻¹) = 10 / 3265920 := by
    norm_num [Nat.factorial]
  rw [h9] at hb1 hb2
  calc |Real.sin x - (x - x ^ 3 / 6 + x ^ 5 / 120 - x ^ 7 / 5040)|
      = Complex.abs ((Real.sin x - (x - x ^ 3 / 6 + x ^ 5 / 120 - x ^ 7 / 5040) : ℝ) : ℂ) :=
        (Complex.abs_ofReal _).symm
    _ = Complex.abs (((Complex.exp (-x * Complex.I)
            - ∑ m ∈ Finset.range 9, (-x * Complex.I) ^ m / m.factorial)
          - (Complex.exp (x * Complex.I)
            - ∑ m ∈ Finset.range 9, (x * Complex.I) ^ m / m.factorial)) * Complex.I / 2) := by
        rw [hid]
    _ = Complex.abs ((Complex.exp (-x * Complex.I)
            - ∑ m ∈ Finset.range 9, (-x * Complex.I) ^ m / m.factorial)
          - (Complex.exp (x * Complex.I)
            - ∑ m ∈ Finset.range 9, (x * Complex.I) ^ m / m.factorial)) / 2 := by
        rw [map_div₀, map_mul, Complex.abs_I, mul_one, Complex.abs_ofNat]
    _ ≤ (|x| ^ 9 * (10 / 3265920) + |x| ^ 9 * (10 / 3265920)) / 2 := by
        have := le_trans htri (add_le_add hb2 hb1)
        linarith
    _ = |x| ^ 9 * (1 / 326592) := by ring

/-- Degree-8 Taylor enclosure of `cos` on `[-1, 1]`. -/
theorem cos_taylor (x : ℝ) (hx : |x| ≤ 1) :
    |Real.cos x - (1 - x ^ 2 / 2 + x ^ 4 / 24 - x ^ 6 / 720 + x ^ 8 / 40320)|
      ≤ |x| ^ 10 * (11 / 36288000) := by
  have hb1 : Complex.abs (Complex.exp (x * Complex.I)
      - ∑ m ∈ Finset.range 10, (x * Complex.I) ^ m / m.factorial)
      ≤ Complex.abs (x * Complex.I) ^ 10 * ((Nat.succ 10 : ℝ)
        * ((Nat.factorial 10 : ℝ) * (10 : ℕ) : ℝ)⁻¹) := by
    exact Complex.exp_bound (by simpa) (by norm_num)
  have hb2 : Complex.abs (Complex.exp (-x * Complex.I)
      - ∑ m ∈ Finset.range 10, (-x * Complex.I) ^ m / m.factorial)
      ≤ Complex.abs (-x * Complex.I) ^ 10 * ((Nat.succ 10 : ℝ)
        * ((Nat.factorial 10 : ℝ) * (10 : ℕ) : ℝ)⁻¹) := by
    exact Complex.exp_bound (by simpa) (by norm_num)
  have hid : ((Real.cos x - (1 - x ^ 2 / 2 + x ^ 4 / 24 - x ^ 6 / 720 + x ^ 8 / 40320) : ℝ) : ℂ)
      = ((Complex.exp (x * Complex.I)
            - ∑ m ∈ Finset.range 10, (x * Complex.I) ^ m / m.factorial)
          + (Complex.exp (-x * Complex.I)
            - ∑ m ∈ Finset.range 10, (-x * Complex.I) ^ m / m.factorial)) / 2 := by
    simp only [Finset.sum_range_succ, Finset.sum_range_zero, Complex.ofReal_sub,
      Complex.ofReal_add, Complex.ofReal_div, Complex.ofReal_pow, Complex.ofReal_ofNat,
      Complex.ofReal_cos, Complex.ofReal_one]
    rw [Complex.cos]
    apply Complex.ext <;>
      simp [Nat.factorial, div_eq_mul_inv, pow_succ, Complex.mul_re, Complex.mul_im,
        Complex.I_re, Complex.I_im, Complex.ofReal_re, Complex.ofReal_im,
        Complex.add_re, Complex.add_im, Complex.sub_re, Complex.sub_im,
        Complex.neg_re, Complex.neg_im] <;>
      ring
  have hA : Complex.abs (x * Complex.I) = |x| := by
    rw [map_mul, Complex.abs_I, Complex.abs_ofReal, mul_one]
  have hB : Complex.abs (-x * Complex.I) = |x| := by
    rw [map_mul, Complex.abs_I, mul_one, ← Complex.ofReal_neg, Complex.abs_ofReal, abs_neg]
  have htri := Complex.abs.add_le (Complex.exp (x * Complex.I)
      - ∑ m ∈ Finset.range 10, (x * Complex.I) ^ m / m.factorial)
    (Complex.exp (-x * Complex.I)
      - ∑ m ∈ Finset.range 10, (-x * Complex.I) ^ m / m.factorial)
  rw [hA] at hb1
  rw [hB] at hb2
  have h10 : ((Nat.succ 10 : ℝ) * ((Nat.factorial 10 : ℝ) * (10 : ℕ) : ℝ)⁻¹) = 11 / 36288000 := by
    norm_num [Nat.factorial]
  rw [h10] at hb1 hb2
  calc |Real.cos x - (1 - x ^ 2 / 2 + x ^ 4 / 24 - x ^ 6 / 720 + x ^ 8 / 40320)|
      = Complex.abs ((Real.cos x
          - (1 - x ^ 2 / 2 + x ^ 4 / 24 - x ^ 6 / 720 + x ^ 8 / 40320) : ℝ) : ℂ) :=
        (Complex.abs_ofReal _).symm
    _ = Complex.abs (((Complex.exp (x * Complex.I)
            - ∑ m ∈ Finset.range 10, (x * Complex.I) ^ m / m.factorial)
          + (Complex.exp (-x * Complex.I)
            - ∑ m ∈ Finset.range 10, (-x * Complex.I) ^ m / m.factorial)) / 2) := by
        rw [hid]
    _ = Complex.abs ((Complex.exp (x * Complex.I)
            - ∑ m ∈ Finset.range 10, (x * Complex.I) ^ m / m.factorial)
          + (Complex.exp (-x * Complex.I)
            - ∑ m ∈ Finset.range 10, (-x * Complex.I) ^ m / m.factorial)) / 2 := by
        rw [map_div₀, Complex.abs_ofNat]
    _ ≤ (|x| ^ 10 * (11 / 36288000) + |x| ^ 10 * (11 / 36288000)) / 2 := by
        have := le_trans htri (add_le_add hb1 hb2)
        linarith
    _ = |x| ^ 10 * (11 / 36288000) := by ring

theorem cos_lb_quad (s : ℝ) : 1 - s ^ 2 / 2 ≤ Real.cos s := by
  have h1 : Real.cos (2 * (s / 2)) = 2 * Real.cos (s / 2) ^ 2 - 1 := Real.cos_two_mul _
  rw [show 2 * (s / 2) = s by ring] at h1
  have h2 := Real.sin_sq_add_cos_sq (s / 2)
  have habs : |Real.sin (s / 2)| ≤ |s / 2| := Real.abs_sin_le_abs
  have h3 : Real.sin (s / 2) ^ 2 ≤ (s / 2) ^ 2 := by
    rw [← sq_abs (Real.sin (s / 2)), ← sq_abs (s / 2)]
    exact pow_le_pow_left₀ (abs_nonneg _) habs 2
  nlinarith

theorem sin_lb_lin (t : ℝ) (h0 : 0 ≤ t) (h1 : t ≤ 1.4) : 0.6 * t ≤ Real.sin t := by
  rcases eq_or_lt_of_le h0 with h | h
  · rw [← h]
    simp
  · have hdbl : Real.sin t = 2 * Real.sin (t / 2) * Real.cos (t / 2) := by
      rw [show t = 2 * (t / 2) by ring, Real.sin_two_mul]
      ring_nf
    have hs := Real.sin_gt_sub_cube (by linarith : 0 < t / 2) (by linarith : t / 2 ≤ 1)
    have hc := cos_lb_quad (t / 2)
    have ht2 : t ^ 2 ≤ 1.96 := by nlinarith
    have hsnn : 0 ≤ t / 2 - (t / 2) ^ 3 / 4 := by nlinarith
    have hcnn : 0 ≤ 1 - (t / 2) ^ 2 / 2 := by nlinarith
    have hmul : (t / 2 - (t / 2) ^ 3 / 4) * (1 - (t / 2) ^ 2 / 2)
        ≤ Real.sin (t / 2) * Real.cos (t / 2) := by
      have := mul_le_mul hs.le hc hcnn (le_of_lt (lt_of_le_of_lt hsnn hs))
      linarith
    have hg : 0 ≤ 0.4 - 3 * t ^ 2 / 16 + t ^ 4 / 128 := by
      nlinarith [sq_nonneg (t ^ 2)]
    have hpoly : 0.6 * t ≤ 2 * ((t / 2 - (t / 2) ^ 3 / 4) * (1 - (t / 2) ^ 2 / 2)) := by
      nlinarith [mul_nonneg h.le hg]
    rw [hdbl]
    linarith

theorem sqrt_between (t a b : ℝ) (ha : 0 ≤ a) (hb : 0 ≤ b) (h1 : a ^ 2 ≤ t) (h2 : t ≤ b ^ 2) :
    a ≤ Real.sqrt t ∧ Real.sqrt t ≤ b :=
  ⟨(Real.le_sqrt ha (le_trans (by positivity) h1)).2 h1,
   (Real.sqrt_le_sqrt h2).trans_eq (Real.sqrt_sq hb)⟩

theorem arctan_le_of_nonneg (x : ℝ) (hx : 0 ≤ x) : arctan x ≤ x := by
  rcases eq_or_lt_of_le hx with h | h
  · rw [← h, Real.arctan_zero]
  · have h0 : 0 < arctan x := by
      rw [← Real.arctan_zero]
      exact Real.arctan_strictMono h
    have hlt := Real.lt_tan h0 (Real.arctan_lt_pi_div_two x)
    rw [Real.tan_arctan] at hlt
    exact hlt.le

theorem le_arctan_of_nonpos (x : ℝ) (hx : x ≤ 0) : x ≤ arctan x := by
  have h := arctan_le_of_nonneg (-x) (by linarith)
  rw [Real.arctan_neg] at h
  linarith

theorem posAngle_eq_of_nonneg {t : ℝ} (h : 0 ≤ t) : posAngle t = t := by
  simp [posAngle, not_lt.2 h]

theorem posAngle_eq_of_neg {t : ℝ} (h : t < 0) : posAngle t = t + 2 * π := by
  simp [posAngle, h]

theorem sin_posAngle (t : ℝ) : sin (posAngle t) = sin t := by
  unfold posAngle
  split
  · exact Real.sin_add_two_pi t
  · rfl

theorem cos_posAngle (t : ℝ) : cos (posAngle t) = cos t := by
  unfold posAngle
  split
  · exact Real.cos_add_two_pi t
  · rfl

theorem posAngle_mem {t : ℝ} (h1 : -π < t) (h2 : t ≤ π) :
    0 ≤ posAngle t ∧ posAngle t < 2 * π := by
  have hπ := Real.pi_pos
  by_cases h : t < 0
  · rw [posAngle_eq_of_neg h]
    constructor <;> linarith
  · push_neg at h
    rw [posAngle_eq_of_nonneg h]
    constructor <;> linarith

theorem atan2_mem_Ioc (y x : ℝ) : -π < atan2 y x ∧ atan2 y x ≤ π :=
  ⟨(Complex.arg_mem_Ioc _).1, (Complex.arg_mem_Ioc _).2⟩

theorem atan2_zero_zero : atan2 0 0 = 0 := by
  have h : (⟨0, 0⟩ : ℂ) = 0 := by
    apply Complex.ext <;> simp
  rw [atan2, h, Complex.arg_zero]

theorem atan2_scale {k y x : ℝ} (hk : 0 < k) : atan2 (k * y) (k * x) = atan2 y x := by
  have h : (⟨k * x, k * y⟩ : ℂ) = (k : ℂ) * ⟨x, y⟩ := by
    apply Complex.ext <;> simp [Complex.mul_re, Complex.mul_im]
  rw [atan2, h, Complex.arg_real_mul _ hk, atan2]

theorem atan2_cos_sin {t : ℝ} (h1 : -π < t) (h2 : t ≤ π) : atan2 (sin t) (cos t) = t := by
  have h : (⟨cos t, sin t⟩ : ℂ) = Complex.cos t + Complex.sin t * Complex.I := by
    rw [Complex.mk_eq_add_mul_I, Complex.ofReal_cos, Complex.ofReal_sin]
  rw [atan2, h, Complex.arg_cos_add_sin_mul_I ⟨h1, h2⟩]

theorem posAngle_atan2_cos_sin {t : ℝ} (h0 : 0 ≤ t) (h2 : t < 2 * π) :
    posAngle (atan2 (sin t) (cos t)) = t := by
  have hπ := Real.pi_pos
  by_cases hle : t ≤ π
  · rw [atan2_cos_sin (by linarith) hle, posAngle_eq_of_nonneg h0]
  · push_neg at hle
    have hs : sin t = sin (t - 2 * π) := (Real.sin_sub_two_pi t).symm
    have hc : cos t = cos (t - 2 * π) := (Real.cos_sub_two_pi t).symm
    rw [hs, hc, atan2_cos_sin (by linarith) (by linarith), posAngle_eq_of_neg (by linarith)]
    ring

theorem posAngle_atan2_scaled {k t : ℝ} (hk : 0 < k) (h0 : 0 ≤ t) (h2 : t < 2 * π) :
    posAngle (atan2 (k * sin t) (k * cos t)) = t := by
  rw [atan2_scale hk, posAngle_atan2_cos_sin h0 h2]

theorem sin_atan2 (y x : ℝ) : sin (atan2 y x) = y / Real.sqrt (x ^ 2 + y ^ 2) := by
  rw [atan2, Complex.sin_arg, Complex.abs_apply, Complex.normSq_mk]
  norm_num [show x * x + y * y = x ^ 2 + y ^ 2 from by ring]

theorem cos_atan2 (y x : ℝ) (h : ¬(x = 0 ∧ y = 0)) :
    cos (atan2 y x) = x / Real.sqrt (x ^ 2 + y ^ 2) := by
  have hz : (⟨x, y⟩ : ℂ) ≠ 0 := by
    intro hc
    rw [Complex.ext_iff] at hc
    simp only [Complex.zero_re, Complex.zero_im] at hc
    exact h hc
  rw [atan2, Complex.cos_arg hz, Complex.abs_apply, Complex.normSq_mk]
  norm_num [show x * x + y * y = x ^ 2 + y ^ 2 from by ring]

theorem sin_nonpos_of_pi_le {t : ℝ} (h1 : π ≤ t) (h2 : t ≤ 2 * π) : sin t ≤ 0 := by
  have h := Real.sin_nonneg_of_nonneg_of_le_pi (x := t - π) (by linarith) (by linarith)
  rw [Real.sin_sub_pi] at h
  linarith

theorem recover_angle {t : ℝ} (h0 : 0 ≤ t) (h2 : t < 2 * π) :
    (if 0 ≤ sin t then Real.arccos (cos t) else 2 * π - Real.arccos (cos t)) = t := by
  have hπ := Real.pi_pos
  by_cases hs : 0 ≤ sin t
  · rw [if_pos hs]
    have ht : t ≤ π := by
      by_contra hgt
      push_neg at hgt
      have hpos : 0 < sin (t - π) :=
        Real.sin_pos_of_pos_of_lt_pi (by linarith) (by linarith)
      rw [Real.sin_sub_pi] at hpos
      linarith
    exact Real.arccos_cos h0 ht
  · rw [if_neg hs]
    push_neg at hs
    have ht : π < t := by
      by_contra hle
      push_neg at hle
      exact absurd (Real.sin_nonneg_of_nonneg_of_le_pi h0 hle) (not_le.2 hs)
    have hc : cos t = cos (2 * π - t) := by
      rw [Real.cos_sub]
      simp [Real.cos_two_pi, Real.sin_two_pi]
    rw [hc, Real.arccos_cos (by linarith) (by linarith)]
    ring

theorem bisect_ok_residual (f : ℝ → ℝ) (tol : ℝ) :
    ∀ (n : ℕ) (lo hi E : ℝ), bisect f tol n lo hi = .ok E → |f E| ≤ tol := by
  intro n
  induction n with
  | zero =>
    intro lo hi E h
    simp [bisect] at h
  | succ n ih =>
    intro lo hi E h
    simp only [bisect] at h
    split_ifs at h with h1 h2
    · injection h with h3
      exact h3 ▸ h1
    · exact ih _ _ _ h
    · exact ih _ _ _ h

theorem bisect_ok_mem (f : ℝ → ℝ) (tol : ℝ) :
    ∀ (n : ℕ) (lo hi E : ℝ), lo ≤ hi → bisect f tol n lo hi = .ok E → lo ≤ E ∧ E ≤ hi := by
  intro n
  induction n with
  | zero =>
    intro lo hi E _ h
    simp [bisect] at h
  | succ n ih =>
    intro lo hi E hle h
    simp only [bisect] at h
    split_ifs at h with h1 h2
    · injection h with h3
      subst h3
      constructor <;> linarith
    · have hm := ih ((lo + hi) / 2) hi E (by linarith) h
      constructor <;> linarith [hm.1, hm.2]
    · have hm := ih lo ((lo + hi) / 2) E (by linarith) h
      constructor <;> linarith [hm.1, hm.2]

theorem bisect_shape (f : ℝ → ℝ) (tol : ℝ) :
    ∀ (n : ℕ) (lo hi : ℝ), bisect f tol n lo hi = .error .convergenceErr ∨
      ∃ E, bisect f tol n lo hi = .ok E ∧ |f E| ≤ tol := by
  intro n
  induction n with
  | zero =>
    intro lo hi
    left
    rfl
  | succ n ih =>
    intro lo hi
    simp only [bisect]
    split_ifs with h1 h2
    · exact Or.inr ⟨_, rfl, h1⟩
    · exact ih _ _
    · exact ih _ _

theorem bisect_conv (f : ℝ → ℝ) (tol L : ℝ) (hL : 0 ≤ L) :
    ∀ (n fuel : ℕ) (lo hi : ℝ), n < fuel → lo ≤ hi →
      (∀ a b, lo ≤ a → a ≤ b → b ≤ hi → |f b - f a| ≤ L * (b - a)) →
      f lo ≤ 0 → 0 ≤ f hi → L * (hi - lo) ≤ 2 ^ n * tol →
      ∃ E, bisect f tol fuel lo hi = .ok E := by
  intro n
  induction n with
  | zero =>
    intro fuel lo hi hfuel hle hlip hflo hfhi hbound
    obtain ⟨m, rfl⟩ : ∃ m, fuel = m + 1 := ⟨fuel - 1, by omega⟩
    have hb : L * (hi - lo) ≤ tol := by simpa using hbound
    have htol : 0 ≤ tol := le_trans (mul_nonneg hL (by linarith)) hb
    have hmlo : lo ≤ (lo + hi) / 2 := by linarith
    have hmhi : (lo + hi) / 2 ≤ hi := by linarith
    have hup : |f ((lo + hi) / 2) - f lo| ≤ L * ((lo + hi) / 2 - lo) :=
      hlip lo ((lo + hi) / 2) le_rfl hmlo hmhi
    have hdn : |f hi - f ((lo + hi) / 2)| ≤ L * (hi - (lo + hi) / 2) :=
      hlip ((lo + hi) / 2) hi hmlo hmhi le_rfl
    have hup' := (abs_le.1 hup).2
    have hdn' := (abs_le.1 hdn).2
    have habs : |f ((lo + hi) / 2)| ≤ tol := by
      rw [abs_le]
      constructor <;> nlinarith
    refine ⟨(lo + hi) / 2, ?_⟩
    simp only [bisect]
    rw [if_pos habs]
  | succ n ih =>
    intro fuel lo hi hfuel hle hlip hflo hfhi hbound
    obtain ⟨m, rfl⟩ : ∃ m, fuel = m + 1 := ⟨fuel - 1, by omega⟩
    by_cases htest : |f ((lo + hi) / 2)| ≤ tol
    · refine ⟨(lo + hi) / 2, ?_⟩
      simp only [bisect]
      rw [if_pos htest]
    · have hnm : n < m := by omega
      have hpow : (2 : ℝ) ^ (n + 1) = 2 * 2 ^ n := by ring
      by_cases hneg : f ((lo + hi) / 2) < 0
      · obtain ⟨E, hE⟩ := ih m ((lo + hi) / 2) hi hnm (by linarith)
          (fun a b ha hab hb => hlip a b (by linarith) hab hb)
          hneg.le hfhi (by rw [hpow] at hbound; linarith)
        refine ⟨E, ?_⟩
        simp only [bisect]
        rw [if_neg htest, if_pos hneg]
        exact hE
      · push_neg at hneg
        obtain ⟨E, hE⟩ := ih m lo ((lo + hi) / 2) hnm (by linarith)
          (fun a b ha hab hb => hlip a b ha hab (by linarith))
          hflo hneg (by rw [hpow] at hbound; linarith)
        refine ⟨E, ?_⟩
        simp only [bisect]
        rw [if_neg htest, if_neg (not_lt.2 hneg)]
        exact hE

theorem keplerRes_lipschitz (e M : ℝ) (he0 : 0 ≤ e) (a b : ℝ) (hab : a ≤ b) :
    |keplerRes e M b - keplerRes e M a| ≤ (1 + e) * (b - a) := by
  have h1 : keplerRes e M b - keplerRes e M a = (b - a) - e * (sin b - sin a) := by
    unfold keplerRes
    ring
  rw [h1]
  have h2 := abs_sin_sub_sin a b
  have h3 : |b - a| = b - a := abs_of_nonneg (by linarith)
  have h4 : |(b - a) - e * (sin b - sin a)| ≤ |b - a| + |e * (sin b - sin a)| := by
    have h := abs_add (b - a) (-(e * (sin b - sin a)))
    simpa [sub_eq_add_neg] using h
  have h5 : |e * (sin b - sin a)| = e * |sin b - sin a| := by
    rw [abs_mul, abs_of_nonneg he0]
  nlinarith [abs_nonneg (sin b - sin a)]

theorem E_from_M_default_ok (e M : ℝ) (he0 : 0 ≤ e) (he1 : e < 1) :
    ∃ E, E_from_M e M default_tol default_max_iter = .ok E := by
  unfold E_from_M
  rw [if_neg (by push_neg; exact ⟨he0, he1⟩)]
  apply bisect_conv (keplerRes e M) default_tol (1 + e) (by linarith) 49 default_max_iter
    (M - e) (M + e)
  · norm_num [default_max_iter]
  · linarith
  · intro a b _ hab _
    exact keplerRes_lipschitz e M he0 a b hab
  · have hs := Real.neg_one_le_sin (M - e)
    unfold keplerRes
    nlinarith
  · have hs := Real.sin_le_one (M + e)
    unfold keplerRes
    nlinarith
  · have h1 : (M + e) - (M - e) = 2 * e := by ring
    rw [h1]
    have h2 : (1 + e) * (2 * e) ≤ 4 := by nlinarith
    have h3 : (4 : ℝ) ≤ 2 ^ 49 * default_tol := by norm_num [default_tol]
    linarith

theorem E_from_M_residual (e M tol : ℝ) (fuel : ℕ) (E : ℝ) (he : ¬(e < 0 ∨ 1 ≤ e))
    (h : E_from_M e M tol fuel = .ok E) : |keplerRes e M E| ≤ tol := by
  unfold E_from_M at h
  rw [if_neg he] at h
  exact bisect_ok_residual _ _ _ _ _ _ h

theorem E_from_M_range (e M tol : ℝ) (fuel : ℕ) (E : ℝ) (he0 : 0 ≤ e) (he1 : e < 1)
    (hM0 : 0 ≤ M) (hM2 : M < 2 * π)
    (h : E_from_M e M tol fuel = .ok E) : 0 ≤ E ∧ E < 2 * π := by
  have hπ := Real.pi_gt_three
  unfold E_from_M at h
  rw [if_neg (by push_neg; exact ⟨he0, he1⟩)] at h
  obtain ⟨m, rfl⟩ : ∃ m, fuel = m + 1 := by
    cases fuel with
    | zero => simp [bisect] at h
    | succ k => exact ⟨k, rfl⟩
  simp only [bisect] at h
  have hmid : ((M - e) + (M + e)) / 2 = M := by ring
  rw [hmid] at h
  split_ifs at h with h1 h2
  · injection h with h3
    subst h3
    exact ⟨hM0, hM2⟩
  · have hres : keplerRes e M M = -(e * sin M) := by
      unfold keplerRes
      ring
    rw [hres] at h2
    have hsin : 0 < e * sin M := by linarith
    have hMpi : M < π := by
      by_contra hge
      push_neg at hge
      have hnp := sin_nonpos_of_pi_le hge (by linarith)
      nlinarith
    have hmem := bisect_ok_mem _ _ _ _ _ _ (show M ≤ M + e by linarith) h
    exact ⟨by linarith [hmem.1], by linarith [hmem.2]⟩
  · have h2' : 0 ≤ keplerRes e M M := not_lt.1 h2
    have habs : tol < |keplerRes e M M| := not_le.1 h1
    rw [abs_of_nonneg h2'] at habs
    have hres : keplerRes e M M = -(e * sin M) := by
      unfold keplerRes
      ring
    have htolnn : 0 ≤ tol ∨ tol < 0 := le_or_lt 0 tol
    have hsin : sin M < 0 ∨ tol < 0 := by
      rcases htolnn with hp | hn
      · left
        rw [hres] at habs
        by_contra hcon
        push_neg at hcon
        nlinarith
      · right
        exact hn
    rcases hsin with hsin | hn
    · have hMpi : π < M := by
        by_contra hle
        push_neg at hle
        exact absurd (Real.sin_nonneg_of_nonneg_of_le_pi hM0 hle) (not_le.2 hsin)
      have hmem := bisect_ok_mem _ _ _ _ _ _ (show M - e ≤ M by linarith) h
      exact ⟨by linarith [hmem.1], by linarith [hmem.2]⟩
    · -- with a negative tolerance the residual test can never succeed, so the
      -- solver cannot have returned a value at all
      exfalso
      have hresid := bisect_ok_residual _ _ _ _ _ _ h
      have habsnn := abs_nonneg (keplerRes e M E)
      linarith

theorem M_from_E_range (e E : ℝ) (he0 : 0 ≤ e) (he1 : e ≤ 1) (hE0 : 0 ≤ E) (hE2 : E < 2 * π) :
    0 ≤ E - e * sin E ∧ E - e * sin E < 2 * π := by
  have hπ := Real.pi_pos
  by_cases hs : 0 ≤ sin E
  · have h1 : sin E ≤ E := by
      rcases eq_or_lt_of_le hE0 with h | h
      · rw [← h]
        simp
      · exact (Real.sin_lt h).le
    constructor
    · nlinarith
    · nlinarith
  · push_neg at hs
    have hEpi : π < E := by
      by_contra hle
      push_neg at hle
      exact absurd (Real.sin_nonneg_of_nonneg_of_le_pi hE0 hle) (not_le.2 hs)
    have hd : sin (2 * π - E) = -sin E := by
      rw [Real.sin_sub]
      simp [Real.sin_two_pi, Real.cos_two_pi]
    have hlt : sin (2 * π - E) < 2 * π - E := Real.sin_lt (by linarith)
    rw [hd] at hlt
    constructor
    · nlinarith
    · nlinarith

theorem E_nu_E (e E : ℝ) (he0 : 0 ≤ e) (he1 : e < 1) (hE0 : 0 ≤ E) (hE2 : E < 2 * π) :
    E_from_nu_core e (nu_from_E_core e E) = E := by
  have hs2 : Real.sqrt (1 - e ^ 2) ^ 2 = 1 - e ^ 2 := Real.sq_sqrt (by nlinarith)
  have hD : 0 < 1 - e * cos E := by
    nlinarith [Real.cos_le_one E, Real.neg_one_le_cos E]
  have habs : Real.sqrt ((cos E - e) ^ 2 + (Real.sqrt (1 - e ^ 2) * sin E) ^ 2)
      = 1 - e * cos E := by
    have hexp : (cos E - e) ^ 2 + (Real.sqrt (1 - e ^ 2) * sin E) ^ 2
        = (1 - e * cos E) ^ 2 := by
      rw [mul_pow, hs2]
      have hsc := sin_sq_add_cos_sq E
      linear_combination (1 - e ^ 2) * hsc
    rw [hexp, Real.sqrt_sq hD.le]
  have hν0 : sin (nu_from_E_core e E)
      = Real.sqrt (1 - e ^ 2) * sin E / (1 - e * cos E) := by
    unfold nu_from_E_core
    rw [sin_posAngle, sin_atan2, habs]
  have hν1 : cos (nu_from_E_core e E) = (cos E - e) / (1 - e * cos E) := by
    unfold nu_from_E_core
    rw [cos_posAngle, cos_atan2, habs]
    intro hc
    have hcc : Real.sqrt ((cos E - e) ^ 2 + (Real.sqrt (1 - e ^ 2) * sin E) ^ 2) = 0 := by
      rw [hc.1, hc.2]
      simp
    rw [habs] at hcc
    linarith
  have harg1 : Real.sqrt (1 - e ^ 2) * sin (nu_from_E_core e E)
      = ((1 - e ^ 2) / (1 - e * cos E)) * sin E := by
    rw [hν0]
    field_simp
    linear_combination sin E * hs2
  have harg2 : cos (nu_from_E_core e E) + e = ((1 - e ^ 2) / (1 - e * cos E)) * cos E := by
    rw [hν1]
    field_simp
    ring
  unfold E_from_nu_core
  rw [harg1, harg2]
  have hk : 0 < (1 - e ^ 2) / (1 - e * cos E) := div_pos (by nlinarith) hD
  exact posAngle_atan2_scaled hk hE0 hE2

set_option maxHeartbeats 3200000 in
/-- C3: for every eccentricity `e` in `[0,1)` and mean anomaly `M` in `[0,2π)`,
converting mean anomaly to true anomaly (with the default solver settings) and
back reproduces `M` within 1e-12; in particular `e = 0.5`, `M = 0.2` yields a
true anomaly within 1e-4 of 0.6595 rad, and converting it back yields the mean
anomaly within 1e-9 of 0.2 rad. -/
theorem anomaly_roundtrip_mean_true :
    (∀ e M : ℝ, 0 ≤ e → e < 1 → 0 ≤ M → M < 2 * π →
      ∃ ν M', true_anomaly_from_mean_anomaly e M default_tol default_max_iter = .ok ν ∧
        mean_anomaly_from_true_anomaly e ν = .ok M' ∧ |M' - M| ≤ 1e-12) ∧
    (∃ ν M', true_anomaly_from_mean_anomaly 0.5 0.2 default_tol default_max_iter = .ok ν ∧
      |ν - 0.6595| ≤ 1e-4 ∧
      mean_anomaly_from_true_anomaly 0.5 ν = .ok M' ∧ |M' - 0.2| ≤ 1e-9) := by
  have hπ3 := Real.pi_gt_three
  constructor
  · intro e M he0 he1 hM0 hM2
    have hguard : ¬(e < 0 ∨ 1 ≤ e) := by
      push_neg
      exact ⟨he0, he1⟩
    obtain ⟨E, hE⟩ := E_from_M_default_ok e M he0 he1
    have hres := E_from_M_residual e M _ _ E hguard hE
    have hrange := E_from_M_range e M _ _ E he0 he1 hM0 hM2 hE
    refine ⟨nu_from_E_core e E, M_from_E_core e (E_from_nu_core e (nu_from_E_core e E)),
      ?_, ?_, ?_⟩
    · unfold true_anomaly_from_mean_anomaly
      rw [hE]
    · unfold mean_anomaly_from_true_anomaly
      rw [if_neg hguard]
    · rw [E_nu_E e E he0 he1 hrange.1 hrange.2]
      unfold M_from_E_core
      rw [posAngle_eq_of_nonneg (M_from_E_range e E he0 he1.le hrange.1 hrange.2).1]
      calc |E - e * sin E - M| = |keplerRes e M E| := rfl
        _ ≤ default_tol := hres
        _ ≤ 1e-12 := by norm_num [default_tol]
  · have hguard : ¬((0.5:ℝ) < 0 ∨ (1:ℝ) ≤ 0.5) := by
      push_neg
      norm_num
    obtain ⟨E, hE⟩ := E_from_M_default_ok 0.5 0.2 (by norm_num) (by norm_num)
    have hres := E_from_M_residual 0.5 0.2 _ _ E hguard hE
    have hrange := E_from_M_range 0.5 0.2 _ _ E (by norm_num) (by norm_num) (by norm_num)
      (by nlinarith) hE
    have hresr : |E - 0.5 * sin E - 0.2| ≤ 1e-14 := by
      calc |E - 0.5 * sin E - 0.2| = |keplerRes 0.5 0.2 E| := rfl
        _ ≤ default_tol := hres
        _ ≤ 1e-14 := by norm_num [default_tol]
    rw [abs_le] at hresr
    have hsE1 : (0.380350313409 : ℝ) ≤ sin 0.39017505 := by
      have h := sin_taylor 0.39017505 (by
        rw [abs_of_nonneg (by norm_num : (0:ℝ) ≤ 0.39017505)]
        norm_num)
      rw [abs_of_nonneg (by norm_num : (0:ℝ) ≤ 0.39017505), abs_le] at h
      nlinarith [h.1]
    have hsE2 : sin 0.39017545 ≤ 0.380350684631 := by
      have h := sin_taylor 0.39017545 (by
        rw [abs_of_nonneg (by norm_num : (0:ℝ) ≤ 0.39017545)]
        norm_num)
      rw [abs_of_nonneg (by norm_num : (0:ℝ) ≤ 0.39017545), abs_le] at h
      nlinarith [h.2]
    have hcE1 : cos 0.39017505 ≤ 0.924842493753 := by
      have h := cos_taylor 0.39017505 (by
        rw [abs_of_nonneg (by norm_num : (0:ℝ) ≤ 0.39017505)]
        norm_num)
      rw [abs_of_nonneg (by norm_num : (0:ℝ) ≤ 0.39017505), abs_le] at h
      nlinarith [h.2]
    have hcE2 : (0.924842341562 : ℝ) ≤ cos 0.39017545 := by
      have h := cos_taylor 0.39017545 (by
        rw [abs_of_nonneg (by norm_num : (0:ℝ) ≤ 0.39017545)]
        norm_num)
      rw [abs_of_nonneg (by norm_num : (0:ℝ) ≤ 0.39017545), abs_le] at h
      nlinarith [h.1]
    have hE1 : (0.39017505 : ℝ) ≤ E := by
      by_contra hlt
      push_neg at hlt
      have habs := abs_sin_sub_sin 0.39017505 E
      rw [abs_of_neg (by linarith : E - (0.39017505:ℝ) < 0), abs_le] at habs
      linarith [habs.1, hresr.1, hsE1]
    have hE2 : E ≤ 0.39017545 := by
      by_contra hlt
      push_neg at hlt
      have habs := abs_sin_sub_sin 0.39017545 E
      rw [abs_of_pos (by linarith : (0:ℝ) < E - 0.39017545), abs_le] at habs
      linarith [habs.2, hresr.2, hsE2]
    have hsin_lo : (0.380350313409 : ℝ) ≤ sin E :=
      le_trans hsE1 (Real.sin_le_sin_of_le_of_le_pi_div_two (by linarith) (by linarith) hE1)
    have hsin_hi : sin E ≤ 0.380350684631 :=
      le_trans (Real.sin_le_sin_of_le_of_le_pi_div_two (by linarith) (by linarith) hE2) hsE2
    have hcos_lo : (0.924842341562 : ℝ) ≤ cos E :=
      le_trans hcE2 (Real.cos_le_cos_of_nonneg_of_le_pi (by linarith) (by linarith) hE2)
    have hcos_hi : cos E ≤ 0.924842493753 :=
      le_trans (Real.cos_le_cos_of_nonneg_of_le_pi (by linarith) (by linarith) hE1) hcE1
    have hQpos : 0 < Real.sqrt (1 - (0.5:ℝ) ^ 2) := Real.sqrt_pos.2 (by norm_num)
    have hQ2 : Real.sqrt (1 - (0.5:ℝ) ^ 2) ^ 2 = 0.75 := by
      rw [Real.sq_sqrt (by norm_num : (0:ℝ) ≤ 1 - (0.5:ℝ) ^ 2)]
      norm_num
    have hxpos : 0 < cos E - 0.5 := by linarith
    have hypos : 0 < Real.sqrt (1 - (0.5:ℝ) ^ 2) * sin E :=
      mul_pos hQpos (by linarith)
    have hy2 : (Real.sqrt (1 - (0.5:ℝ) ^ 2) * sin E) ^ 2 = 0.75 * sin E ^ 2 := by
      rw [mul_pow, hQ2]
    have hsqc_lo : (0.424842341562 : ℝ) ^ 2 ≤ (cos E - 0.5) ^ 2 :=
      pow_le_pow_left₀ (by norm_num) (by linarith) 2
    have hsqc_hi : (cos E - 0.5) ^ 2 ≤ (0.424842493753 : ℝ) ^ 2 :=
      pow_le_pow_left₀ (by linarith) (by linarith) 2
    have hsqs_lo : (0.380350313409 : ℝ) ^ 2 ≤ sin E ^ 2 :=
      pow_le_pow_left₀ (by norm_num) hsin_lo 2
    have hsqs_hi : sin E ^ 2 ≤ (0.380350684631 : ℝ) ^ 2 :=
      pow_le_pow_left₀ (by linarith) hsin_hi 2
    have hD_lo : (0.537578632263 : ℝ) ^ 2
        ≤ (cos E - 0.5) ^ 2 + (Real.sqrt (1 - (0.5:ℝ) ^ 2) * sin E) ^ 2 := by
      rw [hy2]
      have hnum : (0.537578632263 : ℝ) ^ 2
          ≤ (0.424842341562 : ℝ) ^ 2 + 0.75 * (0.380350313409 : ℝ) ^ 2 := by norm_num
      linarith
    have hD_hi : (cos E - 0.5) ^ 2 + (Real.sqrt (1 - (0.5:ℝ) ^ 2) * sin E) ^ 2
        ≤ (0.537578949526 : ℝ) ^ 2 := by
      rw [hy2]
      have hnum : (0.424842493753 : ℝ) ^ 2 + 0.75 * (0.380350684631 : ℝ) ^ 2
          ≤ (0.537578949526 : ℝ) ^ 2 := by norm_num
      linarith
    obtain ⟨hd1, hd2⟩ := sqrt_between
      ((cos E - 0.5) ^ 2 + (Real.sqrt (1 - (0.5:ℝ) ^ 2) * sin E) ^ 2)
      0.537578632263 0.537578949526 (by norm_num) (by norm_num) hD_lo hD_hi
    have hdpos : 0 < Real.sqrt ((cos E - 0.5) ^ 2
        + (Real.sqrt (1 - (0.5:ℝ) ^ 2) * sin E) ^ 2) := by linarith
    have hne : ¬(cos E - 0.5 = 0 ∧ Real.sqrt (1 - (0.5:ℝ) ^ 2) * sin E = 0) := by
      intro hc
      exact absurd hc.1 (ne_of_gt hxpos)
    have hθcos : cos (atan2 (Real.sqrt (1 - (0.5:ℝ) ^ 2) * sin E) (cos E - 0.5))
        = (cos E - 0.5) / Real.sqrt ((cos E - 0.5) ^ 2
            + (Real.sqrt (1 - (0.5:ℝ) ^ 2) * sin E) ^ 2) :=
      cos_atan2 _ _ hne
    have hθsin : sin (atan2 (Real.sqrt (1 - (0.5:ℝ) ^ 2) * sin E) (cos E - 0.5))
        = Real.sqrt (1 - (0.5:ℝ) ^ 2) * sin E / Real.sqrt ((cos E - 0.5) ^ 2
            + (Real.sqrt (1 - (0.5:ℝ) ^ 2) * sin E) ^ 2) :=
      sin_atan2 _ _
    have hmemθ := atan2_mem_Ioc (Real.sqrt (1 - (0.5:ℝ) ^ 2) * sin E) (cos E - 0.5)
    have hθsinpos : 0 < sin (atan2 (Real.sqrt (1 - (0.5:ℝ) ^ 2) * sin E) (cos E - 0.5)) := by
      rw [hθsin]
      exact div_pos hypos hdpos
    have hθpos : 0 < atan2 (Real.sqrt (1 - (0.5:ℝ) ^ 2) * sin E) (cos E - 0.5) := by
      by_contra hle
      push_neg at hle
      have := Real.sin_nonpos_of_nonnpos_of_neg_pi_le hle (le_of_lt hmemθ.1)
      linarith
    have hν_eq : nu_from_E_core 0.5 E
        = atan2 (Real.sqrt (1 - (0.5:ℝ) ^ 2) * sin E) (cos E - 0.5) := by
      unfold nu_from_E_core
      exact posAngle_eq_of_nonneg hθpos.le
    have hcosθ_lo : (0.790237424040 : ℝ)
        ≤ cos (atan2 (Real.sqrt (1 - (0.5:ℝ) ^ 2) * sin E) (cos E - 0.5)) := by
      rw [hθcos]
      have h1 : (0.424842341562 : ℝ) / 0.537578949526
          ≤ (cos E - 0.5) / Real.sqrt ((cos E - 0.5) ^ 2
              + (Real.sqrt (1 - (0.5:ℝ) ^ 2) * sin E) ^ 2) := by
        rw [div_le_div_iff (by norm_num) hdpos]
        have ha1 := mul_le_mul_of_nonneg_left hd2
          (show (0:ℝ) ≤ 0.424842341562 by norm_num)
        have ha2 := mul_le_mul_of_nonneg_right
          (show (0.424842341562:ℝ) ≤ cos E - 0.5 by linarith)
          (show (0:ℝ) ≤ 0.537578949526 by norm_num)
        linarith
      calc (0.790237424040 : ℝ) ≤ (0.424842341562 : ℝ) / 0.537578949526 := by norm_num
        _ ≤ _ := h1
    have hcosθ_hi : cos (atan2 (Real.sqrt (1 - (0.5:ℝ) ^ 2) * sin E) (cos E - 0.5))
        ≤ 0.790359958945 := by
      rw [hθcos]
      have h1 : (cos E - 0.5) / Real.sqrt ((cos E - 0.5) ^ 2
            + (Real.sqrt (1 - (0.5:ℝ) ^ 2) * sin E) ^ 2)
          ≤ (0.424842493753 : ℝ) / 0.537578632263 := by
        rw [div_le_div_iff hdpos (by norm_num)]
        have ha1 := mul_le_mul_of_nonneg_left hd1
          (show (0:ℝ) ≤ 0.424842493753 by norm_num)
        have ha2 := mul_le_mul_of_nonneg_right
          (show cos E - 0.5 ≤ (0.424842493753:ℝ) by linarith)
          (show (0:ℝ) ≤ 0.537578632263 by norm_num)
        linarith
      calc _ ≤ (0.424842493753 : ℝ) / 0.537578632263 := h1
        _ ≤ (0.790359958945 : ℝ) := by norm_num
    have hct2 : cos 0.6596 ≤ 0.790237424040 := by
      have h := cos_taylor 0.6596 (by
        rw [abs_of_nonneg (by norm_num : (0:ℝ) ≤ 0.6596)]
        norm_num)
      rw [abs_of_nonneg (by norm_num : (0:ℝ) ≤ 0.6596), abs_le] at h
      nlinarith [h.2]
    have hct1 : (0.790359958945 : ℝ) ≤ cos 0.6594 := by
      have h := cos_taylor 0.6594 (by
        rw [abs_of_nonneg (by norm_num : (0:ℝ) ≤ 0.6594)]
        norm_num)
      rw [abs_of_nonneg (by norm_num : (0:ℝ) ≤ 0.6594), abs_le] at h
      nlinarith [h.1]
    have hθ_hi : atan2 (Real.sqrt (1 - (0.5:ℝ) ^ 2) * sin E) (cos E - 0.5) ≤ 0.6596 := by
      by_contra hlt
      push_neg at hlt
      have := Real.strictAntiOn_cos
        (Set.mem_Icc.2 ⟨by norm_num, by linarith⟩)
        (Set.mem_Icc.2 ⟨hθpos.le, hmemθ.2⟩) hlt
      linarith
    have hθ_lo : (0.6594 : ℝ) ≤ atan2 (Real.sqrt (1 - (0.5:ℝ) ^ 2) * sin E) (cos E - 0.5) := by
      by_contra hlt
      push_neg at hlt
      have := Real.strictAntiOn_cos
        (Set.mem_Icc.2 ⟨hθpos.le, hmemθ.2⟩)
        (Set.mem_Icc.2 ⟨by norm_num, by linarith⟩) hlt
      linarith
    refine ⟨nu_from_E_core 0.5 E,
      M_from_E_core 0.5 (E_from_nu_core 0.5 (nu_from_E_core 0.5 E)), ?_, ?_, ?_, ?_⟩
    · unfold true_anomaly_from_mean_anomaly
      rw [hE]
    · rw [hν_eq, abs_le]
      constructor
      · linarith
      · linarith
    · unfold mean_anomaly_from_true_anomaly
      rw [if_neg hguard]
    · rw [E_nu_E 0.5 E (by norm_num) (by norm_num) hrange.1 hrange.2]
      unfold M_from_E_core
      rw [posAngle_eq_of_nonneg
        (M_from_E_range 0.5 E (by norm_num) (by norm_num) hrange.1 hrange.2).1]
      calc |E - 0.5 * sin E - 0.2| = |keplerRes 0.5 0.2 E| := rfl
        _ ≤ default_tol := hres
        _ ≤ 1e-9 := by norm_num [default_tol]

theorem anomaly_roundtrip_mean_true_witness :
    ∃ ν M', true_anomaly_from_mean_anomaly 0.5 0.2 default_tol default_max_iter = .ok ν ∧
      mean_anomaly_from_true_anomaly 0.5 ν = .ok M' ∧ |M' - 0.2| ≤ 1e-12 :=
  anomaly_roundtrip_mean_true.1 0.5 0.2 (by norm_num) (by norm_num) (by norm_num)
    (by nlinarith [Real.pi_gt_three])

/-- C5: whenever the Kepler solver does not reach its tolerance within the
iteration cap it fails with a `convergenceErr`, and any value it does return
satisfies the tolerance — it never returns a stale estimate. -/
theorem kepler_solver_no_stale (e M tol : ℝ) (k : ℕ) (he0 : 0 ≤ e) (he1 : e < 1) :
    E_from_M e M tol k = .error .convergenceErr ∨
      ∃ E, E_from_M e M tol k = .ok E ∧ |keplerRes e M E| ≤ tol := by
  unfold E_from_M
  rw [if_neg (by push_neg; exact ⟨he0, he1⟩)]
  exact bisect_shape _ _ _ _ _

theorem kepler_solver_no_stale_witness :
    E_from_M 0.6 0.3 (-1) 7 = .error .convergenceErr ∨
      ∃ E, E_from_M 0.6 0.3 (-1) 7 = .ok E ∧ |keplerRes 0.6 0.3 E| ≤ (-1) :=
  kepler_solver_no_stale 0.6 0.3 (-1) 7 (by norm_num) (by norm_num)

/-- C7: for every eccentricity `0 ≤ e ≤ 0.99` and every mean anomaly, the
Kepler solver with default tolerance 1e-14 and default iteration cap 100
terminates successfully, converging within the cap. -/
theorem kepler_solver_converges (e M : ℝ) (he0 : 0 ≤ e) (he : e ≤ 0.99) :
    ∃ E, E_from_M e M default_tol default_max_iter = .ok E ∧
      |keplerRes e M E| ≤ default_tol := by
  obtain ⟨E, hE⟩ := E_from_M_default_ok e M he0 (by linarith)
  refine ⟨E, hE, E_from_M_residual e M _ _ E ?_ hE⟩
  push_neg
  constructor <;> linarith

theorem kepler_solver_converges_witness :
    ∃ E, E_from_M 0.99 5 default_tol default_max_iter = .ok E ∧
      |keplerRes 0.99 5 E| ≤ default_tol :=
  kepler_solver_converges 0.99 5 (by norm_num) (by norm_num)

/-- C6: every elliptical-only anomaly or element operation invoked with
eccentricity `e ≥ 1` — supplied directly, or implied by a degenerate
(zero angular momentum) or unbound (`e ≥ 1`) position/velocity pair in
`cartesian_to_keplerian` — fails with a `domainErr` before any use of the
value; the invalid eccentricity is never clamped into range. -/
theorem eccentricity_domain_guard (e M E v tol i raan argp a : ℝ) (k : ℕ) (he : 1 ≤ e)
    (pos vel : Vec3)
    (hrv : Vec3.cross pos vel = ⟨0, 0, 0⟩ ∨ 1 ≤ Vec3.norm (eVecOf pos vel)) :
    E_from_M e M tol k = .error .domainErr ∧
    true_anomaly_from_mean_anomaly e M tol k = .error .domainErr ∧
    true_anomaly_from_eccentric_anomaly e E = .error .domainErr ∧
    eccentric_anomaly_from_true_anomaly e v = .error .domainErr ∧
    mean_anomaly_from_true_anomaly e v = .error .domainErr ∧
    keplerian_to_cartesian i raan argp e a M tol k = .error .domainErr ∧
    cartesian_to_keplerian pos vel = .error .domainErr := by
  have hg : e < 0 ∨ 1 ≤ e := Or.inr he
  have h1 : E_from_M e M tol k = .error .domainErr := by
    unfold E_from_M
    rw [if_pos hg]
  refine ⟨h1, ?_, ?_, ?_, ?_, ?_, ?_⟩
  · unfold true_anomaly_from_mean_anomaly
    rw [h1]
  · unfold true_anomaly_from_eccentric_anomaly
    rw [if_pos hg]
  · unfold eccentric_anomaly_from_true_anomaly
    rw [if_pos hg]
  · unfold mean_anomaly_from_true_anomaly
    rw [if_pos hg]
  · unfold keplerian_to_cartesian
    rw [h1]
  · simp only [cartesian_to_keplerian]
    rcases hrv with hzero | hecc
    · rw [hzero, Vec3.norm_zero]
      simp
    · by_cases hz : Vec3.norm (Vec3.cross pos vel) = 0
      · rw [if_pos hz]
      · rw [if_neg hz, if_pos hecc]

theorem eccentricity_domain_guard_witness :
    E_from_M 1.5 0.2 1e-14 100 = .error .domainErr ∧
    cartesian_to_keplerian ⟨7000, 0, 0⟩ ⟨1, 0, 0⟩ = .error .domainErr := by
  have h := eccentricity_domain_guard 1.5 0.2 0.1 0.4 1e-14 0.1 0.2 0.3 10000 100
    (by norm_num) ⟨7000, 0, 0⟩ ⟨1, 0, 0⟩
    (Or.inl (by apply Vec3.ext3 <;> norm_num [Vec3.cross]))
  exact ⟨h.1, h.2.2.2.2.2.2⟩

theorem dot_rot3 (t : ℝ) (u w : Vec3) : Vec3.dot (rot3 t u) (rot3 t w) = Vec3.dot u w := by
  have h := sin_sq_add_cos_sq t
  simp only [rot3, Vec3.dot]
  linear_combination (u.x * w.x + u.y * w.y) * h

theorem dot_rot1 (t : ℝ) (u w : Vec3) : Vec3.dot (rot1 t u) (rot1 t w) = Vec3.dot u w := by
  have h := sin_sq_add_cos_sq t
  simp only [rot1, Vec3.dot]
  linear_combination (u.y * w.y + u.z * w.z) * h

theorem dot_pqw (raan incl argp : ℝ) (u w : Vec3) :
    Vec3.dot (pqw_to_inertial raan incl argp u) (pqw_to_inertial raan incl argp w)
      = Vec3.dot u w := by
  unfold pqw_to_inertial
  rw [dot_rot3, dot_rot1, dot_rot3]

theorem cross_rot3 (t : ℝ) (u w : Vec3) :
    Vec3.cross (rot3 t u) (rot3 t w) = rot3 t (Vec3.cross u w) := by
  have h := sin_sq_add_cos_sq t
  apply Vec3.ext3
  · simp only [rot3, Vec3.cross]
    ring
  · simp only [rot3, Vec3.cross]
    ring
  · simp only [rot3, Vec3.cross]
    linear_combination (u.x * w.y - u.y * w.x) * h

theorem cross_rot1 (t : ℝ) (u w : Vec3) :
    Vec3.cross (rot1 t u) (rot1 t w) = rot1 t (Vec3.cross u w) := by
  have h := sin_sq_add_cos_sq t
  apply Vec3.ext3
  · simp only [rot1, Vec3.cross]
    linear_combination (u.y * w.z - u.z * w.y) * h
  · simp only [rot1, Vec3.cross]
    ring
  · simp only [rot1, Vec3.cross]
    ring

theorem cross_pqw (raan incl argp : ℝ) (u w : Vec3) :
    Vec3.cross (pqw_to_inertial raan incl argp u) (pqw_to_inertial raan incl argp w)
      = pqw_to_inertial raan incl argp (Vec3.cross u w) := by
  unfold pqw_to_inertial
  rw [cross_rot3, cross_rot1, cross_rot3]

theorem norm_pqw (raan incl argp : ℝ) (u : Vec3) :
    Vec3.norm (pqw_to_inertial raan incl argp u) = Vec3.norm u := by
  unfold Vec3.norm
  rw [dot_pqw]

theorem pqw_lin (raan incl argp α β : ℝ) (u w : Vec3) :
    pqw_to_inertial raan incl argp (Vec3.sub (Vec3.smul α u) (Vec3.smul β w))
      = Vec3.sub (Vec3.smul α (pqw_to_inertial raan incl argp u))
          (Vec3.smul β (pqw_to_inertial raan incl argp w)) := by
  apply Vec3.ext3 <;> simp only [pqw_to_inertial, rot3, rot1, Vec3.sub, Vec3.smul] <;> ring

theorem pqw_smul (raan incl argp k : ℝ) (u : Vec3) :
    pqw_to_inertial raan incl argp (Vec3.smul k u)
      = Vec3.smul k (pqw_to_inertial raan incl argp u) := by
  apply Vec3.ext3 <;> simp only [pqw_to_inertial, rot3, rot1, Vec3.smul] <;> ring

theorem pqw_zhat (raan incl argp k : ℝ) :
    pqw_to_inertial raan incl argp ⟨0, 0, k⟩ =
      ⟨k * (sin raan * sin incl), -(k * (cos raan * sin incl)), k * cos incl⟩ := by
  apply Vec3.ext3 <;> simp only [pqw_to_inertial, rot3, rot1] <;> ring

theorem pqw_xhat (raan incl argp k : ℝ) :
    pqw_to_inertial raan incl argp ⟨k, 0, 0⟩ =
      ⟨k * (cos raan * cos argp - sin raan * cos incl * sin argp),
       k * (sin raan * cos argp + cos raan * cos incl * sin argp),
       k * (sin incl * sin argp)⟩ := by
  apply Vec3.ext3 <;> simp only [pqw_to_inertial, rot3, rot1] <;> ring

theorem GM_pos : (0 : ℝ) < GM := by
  norm_num [GM]

theorem keplerian_to_cartesian_eval (i raan argp e a M tol : ℝ) (k : ℕ) (E : ℝ)
    (hE : E_from_M e M tol k = .ok E) :
    keplerian_to_cartesian i raan argp e a M tol k =
      .ok (pqw_to_inertial raan i argp
             ⟨(a * (1 - e ^ 2) / (1 + e * cos (nu_from_E_core e E))) * cos (nu_from_E_core e E),
              (a * (1 - e ^ 2) / (1 + e * cos (nu_from_E_core e E))) * sin (nu_from_E_core e E),
              0⟩,
           pqw_to_inertial raan i argp
             ⟨-(Real.sqrt (GM / (a * (1 - e ^ 2)))) * sin (nu_from_E_core e E),
              Real.sqrt (GM / (a * (1 - e ^ 2))) * (e + cos (nu_from_E_core e E)), 0⟩) := by
  unfold keplerian_to_cartesian
  rw [hE]

theorem perifocal_cross (e ν rmag q : ℝ) :
    Vec3.cross ⟨rmag * cos ν, rmag * sin ν, 0⟩ ⟨-q * sin ν, q * (e + cos ν), 0⟩
      = ⟨0, 0, rmag * q * (1 + e * cos ν)⟩ := by
  have h := sin_sq_add_cos_sq ν
  apply Vec3.ext3
  · simp only [Vec3.cross]
    ring
  · simp only [Vec3.cross]
    ring
  · simp only [Vec3.cross]
    linear_combination rmag * q * h

theorem perifocal_dot_vv (e ν q gmp : ℝ) (hq : q ^ 2 = gmp) :
    Vec3.dot ⟨-q * sin ν, q * (e + cos ν), 0⟩ ⟨-q * sin ν, q * (e + cos ν), 0⟩
      = gmp * (1 + 2 * e * cos ν + e ^ 2) := by
  have h := sin_sq_add_cos_sq ν
  simp only [Vec3.dot]
  linear_combination (sin ν ^ 2 + (e + cos ν) ^ 2) * hq + gmp * h

theorem perifocal_dot_rr (ν rmag : ℝ) :
    Vec3.dot ⟨rmag * cos ν, rmag * sin ν, 0⟩ ⟨rmag * cos ν, rmag * sin ν, 0⟩ = rmag ^ 2 := by
  have h := sin_sq_add_cos_sq ν
  simp only [Vec3.dot]
  linear_combination rmag ^ 2 * h

theorem perifocal_dot_rv (e ν rmag q : ℝ) :
    Vec3.dot ⟨rmag * cos ν, rmag * sin ν, 0⟩ ⟨-q * sin ν, q * (e + cos ν), 0⟩
      = rmag * q * (e * sin ν) := by
  simp only [Vec3.dot]
  ring

theorem perifocal_evec (e ν rmag q p μ : ℝ) (hμeq : q ^ 2 * p = μ)
    (hrp : rmag * (1 + e * cos ν) = p) (hq : q ≠ 0) (hrm : rmag ≠ 0) (hp : p ≠ 0) :
    Vec3.smul (1 / μ)
      (Vec3.sub
        (Vec3.smul (μ / p * (1 + 2 * e * cos ν + e ^ 2) - μ / rmag)
          ⟨rmag * cos ν, rmag * sin ν, 0⟩)
        (Vec3.smul (rmag * q * (e * sin ν)) ⟨-q * sin ν, q * (e + cos ν), 0⟩))
      = ⟨e, 0, 0⟩ := by
  subst hμeq
  subst hrp
  have hD : (1 + e * cos ν) ≠ 0 := by
    intro h0
    rw [h0, mul_zero] at hp
    exact hp rfl
  have hsc := sin_sq_add_cos_sq ν
  apply Vec3.ext3
  · simp only [Vec3.smul, Vec3.sub]
    field_simp
    linear_combination (q ^ 2 * e * rmag ^ 2) * hsc
  · simp only [Vec3.smul, Vec3.sub]
    field_simp
    ring
  · simp only [Vec3.smul, Vec3.sub]
    ring

theorem energy_eval (e c a GMv : ℝ) (hD : 1 + e * c ≠ 0) (ha : a ≠ 0) (hee : 1 - e ^ 2 ≠ 0) :
    GMv / (a * (1 - e ^ 2)) * (1 + 2 * e * c + e ^ 2) / 2
      - GMv / (a * (1 - e ^ 2) / (1 + e * c)) = -(GMv / (2 * a)) := by
  field_simp
  ring

theorem mul_sqrt_div (GMv P : ℝ) (hGMv : 0 ≤ GMv) (hP : 0 < P) :
    P * Real.sqrt (GMv / P) = Real.sqrt (GMv * P) := by
  rw [show GMv * P = (GMv / P) * P ^ 2 by field_simp; ring]
  rw [Real.sqrt_mul (div_nonneg hGMv hP.le), Real.sqrt_sq hP.le]
  ring

/-- C2: for every non-degenerate elliptical element set (0 < e < 1, a > 0,
0 < i < π, angles in `[0, 2π)`), converting to a Cartesian state with the
default solver settings and back reproduces the inclination, RAAN, argument
of periapsis, eccentricity and semi-major axis exactly and the mean anomaly
within 1e-6 (in particular for i=0.1, Ω=0.2, ω=0.3, e=0.4, a=10000, M=0.5). -/
theorem kepler_cartesian_roundtrip (i raan argp e a M : ℝ)
    (hi0 : 0 < i) (hiπ : i < π) (hr0 : 0 ≤ raan) (hr2 : raan < 2 * π)
    (hw0 : 0 ≤ argp) (hw2 : argp < 2 * π) (he0 : 0 < e) (he1 : e < 1)
    (ha : 0 < a) (hM0 : 0 ≤ M) (hM2 : M < 2 * π) :
    ∃ pos vel out,
      keplerian_to_cartesian i raan argp e a M default_tol default_max_iter = .ok (pos, vel) ∧
      cartesian_to_keplerian pos vel = .ok out ∧
      out.inclination_rad = i ∧ out.raan_rad = raan ∧ out.argp_rad = argp ∧
      out.eccentricity = e ∧ out.semi_major_axis_km = a ∧
      |out.mean_anomaly_rad - M| ≤ 1e-6 := by
  obtain ⟨E, hE⟩ := E_from_M_default_ok e M he0.le he1
  have hguard : ¬(e < 0 ∨ 1 ≤ e) := by
    push_neg
    exact ⟨he0.le, he1⟩
  have hres := E_from_M_residual e M _ _ E hguard hE
  have hErange := E_from_M_range e M _ _ E he0.le he1 hM0 hM2 hE
  have heval := keplerian_to_cartesian_eval i raan argp e a M default_tol default_max_iter E hE
  set ν := nu_from_E_core e E with hνdef
  have hνrange : 0 ≤ ν ∧ ν < 2 * π := by
    rw [hνdef]
    unfold nu_from_E_core
    exact posAngle_mem (atan2_mem_Ioc _ _).1 (atan2_mem_Ioc _ _).2
  have hGM := GM_pos
  have hee : (0:ℝ) < 1 - e ^ 2 := by nlinarith
  have hp : (0:ℝ) < a * (1 - e ^ 2) := mul_pos ha hee
  have hD : (0:ℝ) < 1 + e * cos ν := by nlinarith [Real.neg_one_le_cos ν]
  have hrm : (0:ℝ) < a * (1 - e ^ 2) / (1 + e * cos ν) := div_pos hp hD
  have hq2 : Real.sqrt (GM / (a * (1 - e ^ 2))) ^ 2 = GM / (a * (1 - e ^ 2)) :=
    Real.sq_sqrt (le_of_lt (div_pos hGM hp))
  have hqpos : 0 < Real.sqrt (GM / (a * (1 - e ^ 2))) := Real.sqrt_pos.2 (div_pos hGM hp)
  have hsi : 0 < sin i := Real.sin_pos_of_pos_of_lt_pi hi0 hiπ
  refine ⟨pqw_to_inertial raan i argp
      ⟨(a * (1 - e ^ 2) / (1 + e * cos ν)) * cos ν,
       (a * (1 - e ^ 2) / (1 + e * cos ν)) * sin ν, 0⟩,
    pqw_to_inertial raan i argp
      ⟨-(Real.sqrt (GM / (a * (1 - e ^ 2)))) * sin ν,
       Real.sqrt (GM / (a * (1 - e ^ 2))) * (e + cos ν), 0⟩,
    ⟨i, raan, argp, e, a, E_from_nu_core e ν, ν, M_from_E_core e (E_from_nu_core e ν)⟩,
    heval, ?_, rfl, rfl, rfl, rfl, rfl, ?_⟩
  · -- the inverse conversion recovers the elements
    have hcross_pos : Vec3.cross
        (pqw_to_inertial raan i argp
          ⟨(a * (1 - e ^ 2) / (1 + e * cos ν)) * cos ν,
           (a * (1 - e ^ 2) / (1 + e * cos ν)) * sin ν, 0⟩)
        (pqw_to_inertial raan i argp
          ⟨-(Real.sqrt (GM / (a * (1 - e ^ 2)))) * sin ν,
           Real.sqrt (GM / (a * (1 - e ^ 2))) * (e + cos ν), 0⟩)
        = pqw_to_inertial raan i argp ⟨0, 0, Real.sqrt (GM * (a * (1 - e ^ 2)))⟩ := by
      rw [cross_pqw, perifocal_cross]
      refine congrArg (pqw_to_inertial raan i argp) (Vec3.ext3 _ _ rfl rfl ?_)
      show a * (1 - e ^ 2) / (1 + e * cos ν) * Real.sqrt (GM / (a * (1 - e ^ 2)))
          * (1 + e * cos ν) = Real.sqrt (GM * (a * (1 - e ^ 2)))
      rw [show a * (1 - e ^ 2) / (1 + e * cos ν) * Real.sqrt (GM / (a * (1 - e ^ 2)))
          * (1 + e * cos ν)
          = (a * (1 - e ^ 2)) * Real.sqrt (GM / (a * (1 - e ^ 2))) by field_simp; ring]
      exact mul_sqrt_div GM _ hGM.le hp
    set pos := pqw_to_inertial raan i argp
      ⟨(a * (1 - e ^ 2) / (1 + e * cos ν)) * cos ν,
       (a * (1 - e ^ 2) / (1 + e * cos ν)) * sin ν, 0⟩ with hpos_def
    set vel := pqw_to_inertial raan i argp
      ⟨-(Real.sqrt (GM / (a * (1 - e ^ 2)))) * sin ν,
       Real.sqrt (GM / (a * (1 - e ^ 2))) * (e + cos ν), 0⟩ with hvel_def
    set hm := Real.sqrt (GM * (a * (1 - e ^ 2))) with hhm_def
    have hmpos : 0 < hm := Real.sqrt_pos.2 (mul_pos hGM hp)
    have hhc : Vec3.cross pos vel
        = ⟨hm * (sin raan * sin i), -(hm * (cos raan * sin i)), hm * cos i⟩ := by
      rw [hpos_def, hvel_def, hcross_pos, pqw_zhat]
    have hnormh : Vec3.norm (Vec3.cross pos vel) = hm := by
      rw [hpos_def, hvel_def, hcross_pos, norm_pqw]
      show Real.sqrt (Vec3.dot ⟨0, 0, hm⟩ ⟨0, 0, hm⟩) = hm
      rw [show Vec3.dot ⟨0, 0, hm⟩ ⟨0, 0, hm⟩ = hm ^ 2 by simp [Vec3.dot]; ring]
      exact Real.sqrt_sq hmpos.le
    have hg1 : ¬ Vec3.norm (Vec3.cross pos vel) = 0 := by
      rw [hnormh]
      exact hmpos.ne'
    have hVV : Vec3.dot vel vel = GM / (a * (1 - e ^ 2)) * (1 + 2 * e * cos ν + e ^ 2) := by
      rw [hvel_def, dot_pqw]
      exact perifocal_dot_vv e ν _ _ hq2
    have hRV : Vec3.dot pos vel
        = a * (1 - e ^ 2) / (1 + e * cos ν) * Real.sqrt (GM / (a * (1 - e ^ 2)))
          * (e * sin ν) := by
      rw [hpos_def, hvel_def, dot_pqw]
      exact perifocal_dot_rv e ν _ _
    have hnormpos : Vec3.norm pos = a * (1 - e ^ 2) / (1 + e * cos ν) := by
      rw [hpos_def, norm_pqw]
      unfold Vec3.norm
      rw [perifocal_dot_rr]
      exact Real.sqrt_sq hrm.le
    have hGMq : Real.sqrt (GM / (a * (1 - e ^ 2))) ^ 2 * (a * (1 - e ^ 2)) = GM := by
      rw [hq2]
      field_simp
    have hdivmul : a * (1 - e ^ 2) / (1 + e * cos ν) * (1 + e * cos ν) = a * (1 - e ^ 2) :=
      div_mul_cancel₀ _ hD.ne'
    have hevP : eVecOf pos vel = pqw_to_inertial raan i argp ⟨e, 0, 0⟩ := by
      unfold eVecOf
      rw [hVV, hRV, hnormpos, hpos_def, hvel_def, ← pqw_lin, ← pqw_smul]
      exact congrArg (pqw_to_inertial raan i argp)
        (perifocal_evec e ν (a * (1 - e ^ 2) / (1 + e * cos ν))
          (Real.sqrt (GM / (a * (1 - e ^ 2)))) (a * (1 - e ^ 2)) GM hGMq hdivmul
          hqpos.ne' hrm.ne' hp.ne')
    have hev : eVecOf pos vel
        = ⟨e * (cos raan * cos argp - sin raan * cos i * sin argp),
           e * (sin raan * cos argp + cos raan * cos i * sin argp),
           e * (sin i * sin argp)⟩ := by
      rw [hevP, pqw_xhat]
    have hecc : Vec3.norm (eVecOf pos vel) = e := by
      rw [hevP, norm_pqw]
      unfold Vec3.norm
      rw [show Vec3.dot ⟨e, 0, 0⟩ ⟨e, 0, 0⟩ = e ^ 2 by simp [Vec3.dot]; ring]
      exact Real.sqrt_sq he0.le
    have hg2 : ¬ (1 ≤ Vec3.norm (eVecOf pos vel)) := by
      rw [hecc]
      exact not_le.2 he1
    -- recovered true anomaly
    have hcosv : Vec3.dot (eVecOf pos vel) pos
        / (Vec3.norm (eVecOf pos vel) * Vec3.norm pos) = cos ν := by
      have hdotev : Vec3.dot (eVecOf pos vel) pos
          = (e * (a * (1 - e ^ 2) / (1 + e * cos ν))) * cos ν := by
        rw [hevP, hpos_def, dot_pqw]
        simp only [Vec3.dot]
        ring
      rw [hdotev, hecc, hnormpos]
      exact mul_div_cancel_left₀ _ (mul_pos he0 hrm).ne'
    have hconds : (0 ≤ Vec3.dot pos vel) ↔ (0 ≤ sin ν) := by
      rw [hRV]
      rw [show a * (1 - e ^ 2) / (1 + e * cos ν) * Real.sqrt (GM / (a * (1 - e ^ 2)))
          * (e * sin ν)
          = (a * (1 - e ^ 2) / (1 + e * cos ν) * Real.sqrt (GM / (a * (1 - e ^ 2))) * e)
            * sin ν by ring]
      exact mul_nonneg_iff_of_pos_left (mul_pos (mul_pos hrm hqpos) he0)
    have htru : (if 0 ≤ Vec3.dot pos vel then
          Real.arccos (Vec3.dot (eVecOf pos vel) pos
            / (Vec3.norm (eVecOf pos vel) * Vec3.norm pos))
        else 2 * π - Real.arccos (Vec3.dot (eVecOf pos vel) pos
            / (Vec3.norm (eVecOf pos vel) * Vec3.norm pos))) = ν := by
      rw [hcosv]
      simp only [hconds]
      exact recover_angle hνrange.1 hνrange.2
    -- recovered node quantities
    have hnodeeq : (⟨-(Vec3.cross pos vel).y, (Vec3.cross pos vel).x, 0⟩ : Vec3)
        = ⟨(hm * sin i) * cos raan, (hm * sin i) * sin raan, 0⟩ := by
      rw [hhc]
      apply Vec3.ext3
      · show -(-(hm * (cos raan * sin i))) = hm * sin i * cos raan
        ring
      · show hm * (sin raan * sin i) = hm * sin i * sin raan
        ring
      · rfl
    have hnodenorm : Vec3.norm ⟨(hm * sin i) * cos raan, (hm * sin i) * sin raan, 0⟩
        = hm * sin i := by
      unfold Vec3.norm
      rw [show Vec3.dot ⟨(hm * sin i) * cos raan, (hm * sin i) * sin raan, 0⟩
          ⟨(hm * sin i) * cos raan, (hm * sin i) * sin raan, 0⟩ = (hm * sin i) ^ 2 by
        simp only [Vec3.dot]
        linear_combination (hm * sin i) ^ 2 * sin_sq_add_cos_sq raan]
      exact Real.sqrt_sq (mul_pos hmpos hsi).le
    have hraan : posAngle (atan2 (Vec3.cross pos vel).x (-(Vec3.cross pos vel).y)) = raan := by
      have hx : (Vec3.cross pos vel).x = (hm * sin i) * sin raan := by
        rw [hhc]
        show hm * (sin raan * sin i) = hm * sin i * sin raan
        ring
      have hy : -(Vec3.cross pos vel).y = (hm * sin i) * cos raan := by
        rw [hhc]
        show -(-(hm * (cos raan * sin i))) = hm * sin i * cos raan
        ring
      rw [hx, hy]
      exact posAngle_atan2_scaled (mul_pos hmpos hsi) hr0 hr2
    have hargp : (if 0 ≤ (eVecOf pos vel).z then
          Real.arccos (Vec3.dot ⟨-(Vec3.cross pos vel).y, (Vec3.cross pos vel).x, 0⟩
              (eVecOf pos vel)
            / (Vec3.norm ⟨-(Vec3.cross pos vel).y, (Vec3.cross pos vel).x, 0⟩
              * Vec3.norm (eVecOf pos vel)))
        else 2 * π - Real.arccos (Vec3.dot ⟨-(Vec3.cross pos vel).y, (Vec3.cross pos vel).x, 0⟩
              (eVecOf pos vel)
            / (Vec3.norm ⟨-(Vec3.cross pos vel).y, (Vec3.cross pos vel).x, 0⟩
              * Vec3.norm (eVecOf pos vel)))) = argp := by
      have hcosw : Vec3.dot ⟨-(Vec3.cross pos vel).y, (Vec3.cross pos vel).x, 0⟩
            (eVecOf pos vel)
          / (Vec3.norm ⟨-(Vec3.cross pos vel).y, (Vec3.cross pos vel).x, 0⟩
            * Vec3.norm (eVecOf pos vel)) = cos argp := by
        rw [hnodeeq, hecc, hnodenorm, hev]
        rw [show Vec3.dot ⟨(hm * sin i) * cos raan, (hm * sin i) * sin raan, 0⟩
            ⟨e * (cos raan * cos argp - sin raan * cos i * sin argp),
             e * (sin raan * cos argp + cos raan * cos i * sin argp),
             e * (sin i * sin argp)⟩ = (hm * sin i * e) * cos argp by
          simp only [Vec3.dot]
          linear_combination (hm * sin i * e * cos argp) * sin_sq_add_cos_sq raan]
        exact mul_div_cancel_left₀ _ (mul_pos (mul_pos hmpos hsi) he0).ne'
      have hcondz : (0 ≤ (eVecOf pos vel).z) ↔ (0 ≤ sin argp) := by
        rw [hev]
        show (0 ≤ e * (sin i * sin argp)) ↔ (0 ≤ sin argp)
        rw [show e * (sin i * sin argp) = (e * sin i) * sin argp by ring]
        exact mul_nonneg_iff_of_pos_left (mul_pos he0 hsi)
      rw [hcosw]
      simp only [hcondz]
      exact recover_angle hw0 hw2
    have hincl : Real.arccos ((Vec3.cross pos vel).z / Vec3.norm (Vec3.cross pos vel)) = i := by
      have hz : (Vec3.cross pos vel).z = hm * cos i := by
        rw [hhc]
      rw [hz, hnormh, mul_div_cancel_left₀ _ hmpos.ne']
      exact Real.arccos_cos hi0.le hiπ.le
    have hsma : -GM / (2 * (Vec3.dot vel vel / 2 - GM / Vec3.norm pos)) = a := by
      rw [hVV, hnormpos, energy_eval e (cos ν) a GM hD.ne' ha.ne' hee.ne']
      field_simp
      ring
    simp only [cartesian_to_keplerian]
    rw [if_neg hg1, if_neg hg2]
    refine congrArg Except.ok ?_
    rw [KeplerianElements.mk.injEq]
    exact ⟨hincl, hraan, hargp, hecc, hsma, by rw [htru, hecc], htru, by rw [htru, hecc]⟩
  · show |M_from_E_core e (E_from_nu_core e ν) - M| ≤ 1e-6
    rw [hνdef, E_nu_E e E he0.le he1 hErange.1 hErange.2]
    unfold M_from_E_core
    rw [posAngle_eq_of_nonneg (M_from_E_range e E he0.le he1.le hErange.1 hErange.2).1]
    calc |E - e * sin E - M| = |keplerRes e M E| := rfl
      _ ≤ default_tol := hres
      _ ≤ 1e-6 := by norm_num [default_tol]

theorem kepler_cartesian_roundtrip_witness :
    ∃ pos vel out,
      keplerian_to_cartesian 0.1 0.2 0.3 0.4 10000 0.5 default_tol default_max_iter
        = .ok (pos, vel) ∧
      cartesian_to_keplerian pos vel = .ok out ∧
      out.inclination_rad = 0.1 ∧ out.raan_rad = 0.2 ∧ out.argp_rad = 0.3 ∧
      out.eccentricity = 0.4 ∧ out.semi_major_axis_km = 10000 ∧
      |out.mean_anomaly_rad - 0.5| ≤ 1e-6 :=
  kepler_cartesian_roundtrip 0.1 0.2 0.3 0.4 10000 0.5 (by norm_num)
    (by nlinarith [Real.pi_gt_three]) (by norm_num) (by nlinarith [Real.pi_gt_three])
    (by norm_num) (by nlinarith [Real.pi_gt_three]) (by norm_num) (by norm_num)
    (by norm_num) (by norm_num) (by nlinarith [Real.pi_gt_three])

theorem bisect_succ (f : ℝ → ℝ) (tol : ℝ) (n : ℕ) (lo hi : ℝ) :
    bisect f tol (n + 1) lo hi =
      if |f ((lo + hi) / 2)| ≤ tol then .ok ((lo + hi) / 2)
      else if f ((lo + hi) / 2) < 0 then bisect f tol n ((lo + hi) / 2) hi
      else bisect f tol n lo ((lo + hi) / 2) := rfl

theorem E_from_M_zero_ecc (M : ℝ) : E_from_M 0 M default_tol default_max_iter = .ok M := by
  unfold E_from_M
  rw [if_neg (by norm_num)]
  unfold default_max_iter
  rw [show (100 : ℕ) = 99 + 1 from rfl, bisect_succ]
  rw [show ((M - 0) + (M + 0)) / 2 = M by ring]
  rw [show keplerRes 0 M M = 0 by unfold keplerRes; ring]
  rw [if_pos (by norm_num [default_tol])]

/-- C8: for every circular (e = 0) or equatorial (i = 0) element set,
`keplerian_to_cartesian` does not fail, and the returned state is exactly the
perifocal state rotated by the caller-supplied argument of periapsis and RAAN
(the two angles enter the output exactly as supplied, in both degenerate
cases); in the circular case the returned state additionally reduces to the
closed-form circular state at true anomaly `M` — no convention is ever
substituted for a degenerate angle. -/
theorem degenerate_elements_use_supplied_angles (i raan argp e a M : ℝ)
    (he0 : 0 ≤ e) (he1 : e < 1) (hM0 : 0 ≤ M) (hM2 : M < 2 * π) (hdeg : e = 0 ∨ i = 0) :
    ∃ ν, keplerian_to_cartesian i raan argp e a M default_tol default_max_iter
        = .ok (pqw_to_inertial raan i argp
            ⟨(a * (1 - e ^ 2) / (1 + e * cos ν)) * cos ν,
             (a * (1 - e ^ 2) / (1 + e * cos ν)) * sin ν, 0⟩,
          pqw_to_inertial raan i argp
            ⟨-(Real.sqrt (GM / (a * (1 - e ^ 2)))) * sin ν,
             Real.sqrt (GM / (a * (1 - e ^ 2))) * (e + cos ν), 0⟩) ∧
      (e = 0 → ν = M ∧
        keplerian_to_cartesian i raan argp e a M default_tol default_max_iter
          = .ok (pqw_to_inertial raan i argp ⟨a * cos M, a * sin M, 0⟩,
            pqw_to_inertial raan i argp
              ⟨-(Real.sqrt (GM / a)) * sin M, Real.sqrt (GM / a) * cos M, 0⟩)) := by
  obtain ⟨E, hE⟩ := E_from_M_default_ok e M he0 he1
  refine ⟨nu_from_E_core e E,
    keplerian_to_cartesian_eval i raan argp e a M default_tol default_max_iter E hE, ?_⟩
  intro he
  subst he
  have hEM : E = M := by
    have h0 := E_from_M_zero_ecc M
    rw [hE] at h0
    exact Except.ok.inj h0
  subst hEM
  have hν : nu_from_E_core 0 E = E := by
    unfold nu_from_E_core
    norm_num
    exact posAngle_atan2_cos_sin hM0 hM2
  refine ⟨hν, ?_⟩
  rw [keplerian_to_cartesian_eval i raan argp 0 a E default_tol default_max_iter E hE]
  rw [hν]
  refine congrArg Except.ok ?_
  rw [Prod.ext_iff]
  constructor
  · exact congrArg (pqw_to_inertial raan i argp) (Vec3.ext3 _ _ (by norm_num) (by norm_num) rfl)
  · exact congrArg (pqw_to_inertial raan i argp) (Vec3.ext3 _ _ (by norm_num) (by norm_num) rfl)

theorem degenerate_elements_witness :
    ∃ ν, keplerian_to_cartesian 0 0.2 0.3 0.25 10000 0.7 default_tol default_max_iter
        = .ok (pqw_to_inertial 0.2 0 0.3
            ⟨(10000 * (1 - (0.25:ℝ) ^ 2) / (1 + 0.25 * cos ν)) * cos ν,
             (10000 * (1 - (0.25:ℝ) ^ 2) / (1 + 0.25 * cos ν)) * sin ν, 0⟩,
          pqw_to_inertial 0.2 0 0.3
            ⟨-(Real.sqrt (GM / (10000 * (1 - (0.25:ℝ) ^ 2)))) * sin ν,
             Real.sqrt (GM / (10000 * (1 - (0.25:ℝ) ^ 2))) * (0.25 + cos ν), 0⟩) ∧
      ((0.25 : ℝ) = 0 → ν = 0.7 ∧
        keplerian_to_cartesian 0 0.2 0.3 0.25 10000 0.7 default_tol default_max_iter
          = .ok (pqw_to_inertial 0.2 0 0.3 ⟨10000 * cos 0.7, 10000 * sin 0.7, 0⟩,
            pqw_to_inertial 0.2 0 0.3
              ⟨-(Real.sqrt (GM / 10000)) * sin 0.7, Real.sqrt (GM / 10000) * cos 0.7, 0⟩)) :=
  degenerate_elements_use_supplied_angles 0 0.2 0.3 0.25 10000 0.7 (by norm_num) (by norm_num)
    (by norm_num) (by nlinarith [Real.pi_gt_three]) (Or.inr rfl)

theorem e2g_pos : (0 : ℝ) < e2g := by
  norm_num [e2g, flat]

theorem e2g_small : e2g < 0.1 := by
  norm_num [e2g, flat]

theorem R_earth_pos : (0 : ℝ) < R_earth := by
  norm_num [R_earth]

theorem w_lat_arg_nonneg (t : ℝ) : 0 ≤ 1 - e2g * sin t ^ 2 := by
  nlinarith [Real.sin_sq_le_one t, e2g_pos, e2g_small, sq_nonneg (sin t)]

theorem w_lat_lb (t : ℝ) : Real.sqrt (1 - e2g) ≤ Real.sqrt (1 - e2g * sin t ^ 2) :=
  Real.sqrt_le_sqrt (by nlinarith [Real.sin_sq_le_one t, e2g_pos])

theorem w_lat_ub (t : ℝ) : Real.sqrt (1 - e2g * sin t ^ 2) ≤ 1 := by
  have h := Real.sqrt_le_sqrt (show 1 - e2g * sin t ^ 2 ≤ 1 by
    nlinarith [sq_nonneg (sin t), e2g_pos])
  rwa [Real.sqrt_one] at h

theorem sqrt_1me2g_lb : (0.9 : ℝ) ≤ Real.sqrt (1 - e2g) := by
  rw [Real.le_sqrt (by norm_num) (by norm_num [e2g, flat])]
  norm_num [e2g, flat]

theorem w_lat_pos (t : ℝ) : 0 < Real.sqrt (1 - e2g * sin t ^ 2) :=
  lt_of_lt_of_le (lt_of_lt_of_le (by norm_num) sqrt_1me2g_lb) (w_lat_lb t)

theorem w_lat_sq (t : ℝ) : Real.sqrt (1 - e2g * sin t ^ 2) ^ 2 = 1 - e2g * sin t ^ 2 :=
  Real.sq_sqrt (w_lat_arg_nonneg t)

theorem nRad_pos (t : ℝ) : 0 < nRad t :=
  div_pos R_earth_pos (w_lat_pos t)

theorem nRad_ub (t : ℝ) : nRad t ≤ R_earth / 0.9 := by
  unfold nRad
  rw [div_le_div_iff (w_lat_pos t) (by norm_num)]
  nlinarith [le_trans sqrt_1me2g_lb (w_lat_lb t), R_earth_pos]

theorem w_lat_diff (x y : ℝ) :
    |Real.sqrt (1 - e2g * sin y ^ 2) - Real.sqrt (1 - e2g * sin x ^ 2)|
      ≤ e2g / 0.9 * |sin y - sin x| := by
  have hwx := w_lat_pos x
  have hwy := w_lat_pos y
  have hx2 := w_lat_sq x
  have hy2 := w_lat_sq y
  have hlbx := le_trans sqrt_1me2g_lb (w_lat_lb x)
  have hlby := le_trans sqrt_1me2g_lb (w_lat_lb y)
  have hdiff : (Real.sqrt (1 - e2g * sin y ^ 2) - Real.sqrt (1 - e2g * sin x ^ 2))
      * (Real.sqrt (1 - e2g * sin y ^ 2) + Real.sqrt (1 - e2g * sin x ^ 2))
      = e2g * (sin x ^ 2 - sin y ^ 2) := by
    linear_combination hy2 - hx2
  have habs : |Real.sqrt (1 - e2g * sin y ^ 2) - Real.sqrt (1 - e2g * sin x ^ 2)|
      * (Real.sqrt (1 - e2g * sin y ^ 2) + Real.sqrt (1 - e2g * sin x ^ 2))
      = e2g * |sin x ^ 2 - sin y ^ 2| := by
    rw [← abs_of_pos (show 0 < Real.sqrt (1 - e2g * sin y ^ 2)
        + Real.sqrt (1 - e2g * sin x ^ 2) by linarith), ← abs_mul, hdiff, abs_mul,
      abs_of_pos e2g_pos]
  have hsum : |sin x ^ 2 - sin y ^ 2| ≤ 2 * |sin y - sin x| := by
    rw [show sin x ^ 2 - sin y ^ 2 = (sin x - sin y) * (sin x + sin y) by ring, abs_mul,
      abs_sub_comm (sin x) (sin y)]
    have h2 : |sin x + sin y| ≤ 2 := by
      calc |sin x + sin y| ≤ |sin x| + |sin y| := abs_add _ _
        _ ≤ 2 := by nlinarith [Real.abs_sin_le_one x, Real.abs_sin_le_one y]
    nlinarith [abs_nonneg (sin y - sin x)]
  have h18 : (1.8 : ℝ) ≤ Real.sqrt (1 - e2g * sin y ^ 2) + Real.sqrt (1 - e2g * sin x ^ 2) := by
    linarith
  have step1 : |Real.sqrt (1 - e2g * sin y ^ 2) - Real.sqrt (1 - e2g * sin x ^ 2)| * 1.8
      ≤ e2g * (2 * |sin y - sin x|) := by
    calc |Real.sqrt (1 - e2g * sin y ^ 2) - Real.sqrt (1 - e2g * sin x ^ 2)| * 1.8
        ≤ |Real.sqrt (1 - e2g * sin y ^ 2) - Real.sqrt (1 - e2g * sin x ^ 2)|
          * (Real.sqrt (1 - e2g * sin y ^ 2) + Real.sqrt (1 - e2g * sin x ^ 2)) := by
          nlinarith [abs_nonneg (Real.sqrt (1 - e2g * sin y ^ 2)
            - Real.sqrt (1 - e2g * sin x ^ 2))]
      _ = e2g * |sin x ^ 2 - sin y ^ 2| := habs
      _ ≤ e2g * (2 * |sin y - sin x|) := by nlinarith [e2g_pos]
  ring_nf at step1 ⊢
  linarith

theorem nsin_diff (x y : ℝ) :
    |e2g * nRad y * sin y - e2g * nRad x * sin x| ≤ 2 * R_earth * |y - x| := by
  have hwx := w_lat_pos x
  have hwy := w_lat_pos y
  have hlbx := le_trans sqrt_1me2g_lb (w_lat_lb x)
  have hlby := le_trans sqrt_1me2g_lb (w_lat_lb y)
  have hubx := w_lat_ub x
  have huby := w_lat_ub y
  have key : e2g * nRad y * sin y - e2g * nRad x * sin x
      = e2g * R_earth * ((sin y * Real.sqrt (1 - e2g * sin x ^ 2)
          - sin x * Real.sqrt (1 - e2g * sin y ^ 2))
        / (Real.sqrt (1 - e2g * sin y ^ 2) * Real.sqrt (1 - e2g * sin x ^ 2))) := by
    unfold nRad
    field_simp
    ring
  rw [key]
  have hnum : |sin y * Real.sqrt (1 - e2g * sin x ^ 2)
      - sin x * Real.sqrt (1 - e2g * sin y ^ 2)|
      ≤ |sin y - sin x| + |Real.sqrt (1 - e2g * sin x ^ 2)
          - Real.sqrt (1 - e2g * sin y ^ 2)| := by
    have hsplit : sin y * Real.sqrt (1 - e2g * sin x ^ 2)
        - sin x * Real.sqrt (1 - e2g * sin y ^ 2)
        = (sin y - sin x) * Real.sqrt (1 - e2g * sin x ^ 2)
          + sin x * (Real.sqrt (1 - e2g * sin x ^ 2) - Real.sqrt (1 - e2g * sin y ^ 2)) := by
      ring
    rw [hsplit]
    calc |(sin y - sin x) * Real.sqrt (1 - e2g * sin x ^ 2)
        + sin x * (Real.sqrt (1 - e2g * sin x ^ 2) - Real.sqrt (1 - e2g * sin y ^ 2))|
        ≤ |(sin y - sin x) * Real.sqrt (1 - e2g * sin x ^ 2)|
          + |sin x * (Real.sqrt (1 - e2g * sin x ^ 2) - Real.sqrt (1 - e2g * sin y ^ 2))| :=
          abs_add _ _
      _ ≤ |sin y - sin x| + |Real.sqrt (1 - e2g * sin x ^ 2)
          - Real.sqrt (1 - e2g * sin y ^ 2)| := by
          rw [abs_mul, abs_mul]
          have h1 : |Real.sqrt (1 - e2g * sin x ^ 2)| ≤ 1 := by
            rw [abs_of_pos hwx]
            exact hubx
          have h2 : |sin x| ≤ 1 := Real.abs_sin_le_one x
          nlinarith [abs_nonneg (sin y - sin x),
            abs_nonneg (Real.sqrt (1 - e2g * sin x ^ 2) - Real.sqrt (1 - e2g * sin y ^ 2))]
  have hwdiff : |Real.sqrt (1 - e2g * sin x ^ 2) - Real.sqrt (1 - e2g * sin y ^ 2)|
      ≤ e2g / 0.9 * |sin y - sin x| := by
    have h := w_lat_diff y x
    rw [abs_sub_comm (sin x) (sin y)] at h
    exact h
  have hsinb := abs_sin_sub_sin x y
  have hdenom : (0.81 : ℝ) ≤ Real.sqrt (1 - e2g * sin y ^ 2)
      * Real.sqrt (1 - e2g * sin x ^ 2) := by nlinarith
  rw [abs_mul, abs_mul, abs_div, abs_of_pos e2g_pos, abs_of_pos R_earth_pos,
    abs_of_pos (mul_pos hwy hwx), mul_div_assoc']
  rw [div_le_iff₀ (mul_pos hwy hwx)]
  have h4 := mul_le_mul_of_nonneg_left hsinb (le_of_lt e2g_pos)
  have hnum2 : |sin y * Real.sqrt (1 - e2g * sin x ^ 2)
      - sin x * Real.sqrt (1 - e2g * sin y ^ 2)| ≤ (1 + e2g / 0.9) * |y - x| := by
    ring_nf at hnum hwdiff hsinb h4 ⊢
    linarith
  have hA : e2g * R_earth * |sin y * Real.sqrt (1 - e2g * sin x ^ 2)
      - sin x * Real.sqrt (1 - e2g * sin y ^ 2)|
      ≤ e2g * R_earth * ((1 + e2g / 0.9) * |y - x|) := by
    have h := mul_le_mul_of_nonneg_left hnum2 (le_of_lt (mul_pos e2g_pos R_earth_pos))
    ring_nf at h ⊢
    linarith
  have hcoef : e2g + e2g ^ 2 / 0.9 ≤ 1.62 := by
    norm_num [e2g, flat]
  have hP : 0 ≤ R_earth * |y - x| := mul_nonneg R_earth_pos.le (abs_nonneg _)
  have hB : e2g * R_earth * ((1 + e2g / 0.9) * |y - x|)
      ≤ 1.62 * R_earth * |y - x| := by
    have h := mul_le_mul_of_nonneg_right hcoef hP
    ring_nf at h ⊢
    linarith
  have hC : (1.62 : ℝ) * R_earth * |y - x| ≤ 2 * R_earth * |y - x|
      * (Real.sqrt (1 - e2g * sin y ^ 2) * Real.sqrt (1 - e2g * sin x ^ 2)) := by
    have h := mul_le_mul_of_nonneg_left hdenom
      (mul_nonneg (mul_nonneg (show (0:ℝ) ≤ 2 by norm_num) R_earth_pos.le) (abs_nonneg (y - x)))
    ring_nf at h ⊢
    linarith
  linarith

theorem tan_diff (x y : ℝ) (hx : cos x ≠ 0) (hy : cos y ≠ 0) :
    tan y - tan x = sin (y - x) / (cos x * cos y) := by
  rw [Real.tan_eq_sin_div_cos, Real.tan_eq_sin_div_cos, div_sub_div _ _ hy hx,
    Real.sin_sub, mul_comm (cos y) (cos x)]

theorem tan_diff_bound (x y cmin : ℝ) (hc : 0 < cmin) (hx : cmin ≤ cos x) (hy : cmin ≤ cos y) :
    |tan y - tan x| ≤ |y - x| / cmin ^ 2 := by
  rw [tan_diff x y (by linarith) (by linarith), abs_div]
  have h1 : |sin (y - x)| ≤ |y - x| := Real.abs_sin_le_abs
  have h2 : cmin ^ 2 ≤ |cos x * cos y| := by
    rw [abs_mul, abs_of_pos (show 0 < cos x by linarith), abs_of_pos (show 0 < cos y by linarith)]
    nlinarith
  exact div_le_div (abs_nonneg _) h1 (by positivity) h2

theorem cos_ge_min {lo hi t : ℝ} (hlo2 : -(π / 2) < lo) (hhi2 : hi < π / 2)
    (h1 : lo ≤ t) (h2 : t ≤ hi) : min (cos lo) (cos hi) ≤ cos t := by
  have hπ := Real.pi_pos
  rcases le_total t 0 with ht | ht
  · have h := Real.cos_le_cos_of_nonneg_of_le_pi (show 0 ≤ -t by linarith)
      (show -lo ≤ π by linarith) (show -t ≤ -lo by linarith)
    rw [Real.cos_neg, Real.cos_neg] at h
    exact le_trans (min_le_left _ _) h
  · exact le_trans (min_le_right _ _)
      (Real.cos_le_cos_of_nonneg_of_le_pi ht (by linarith) h2)

theorem endpoint_cos_lb (rho zc u : ℝ) (hρ : 0 < rho) (hu : |u| ≤ |zc| + R_earth) :
    1 / Real.sqrt (1 + ((|zc| + R_earth) / rho) ^ 2) ≤ cos (arctan (u / rho)) := by
  rw [Real.cos_arctan]
  have h1 : (u / rho) ^ 2 ≤ ((|zc| + R_earth) / rho) ^ 2 := by
    rw [div_pow, div_pow]
    refine (div_le_div_right (by positivity)).2 ?_
    nlinarith [sq_abs u, abs_nonneg u, abs_nonneg zc, R_earth_pos]
  have h2 : Real.sqrt (1 + (u / rho) ^ 2)
      ≤ Real.sqrt (1 + ((|zc| + R_earth) / rho) ^ 2) :=
    Real.sqrt_le_sqrt (by linarith)
  exact one_div_le_one_div_of_le (Real.sqrt_pos.2 (by positivity)) h2

theorem geoResidual_lipschitz (rho zc : ℝ) (hρ : 0 < rho) (x y : ℝ)
    (hx1 : geoLo rho zc ≤ x) (hx2 : x ≤ y) (hy2 : y ≤ geoHi rho zc) :
    |geoResidual rho zc y - geoResidual rho zc x| ≤ geoLip rho zc * (y - x) := by
  have hπ := Real.pi_pos
  have hT0 : 0 ≤ (|zc| + R_earth) / rho :=
    div_nonneg (add_nonneg (abs_nonneg zc) R_earth_pos.le) hρ.le
  have hsqpos : 0 < Real.sqrt (1 + ((|zc| + R_earth) / rho) ^ 2) :=
    Real.sqrt_pos.2 (by positivity)
  have hsq : Real.sqrt (1 + ((|zc| + R_earth) / rho) ^ 2) ^ 2
      = 1 + ((|zc| + R_earth) / rho) ^ 2 := Real.sq_sqrt (by positivity)
  have hcminpos : 0 < 1 / Real.sqrt (1 + ((|zc| + R_earth) / rho) ^ 2) := by positivity
  have hlocos : 1 / Real.sqrt (1 + ((|zc| + R_earth) / rho) ^ 2) ≤ cos (geoLo rho zc) := by
    unfold geoLo
    apply endpoint_cos_lb rho zc _ hρ
    calc |zc - R_earth| ≤ |zc| + |R_earth| := abs_sub _ _
      _ = |zc| + R_earth := by rw [abs_of_pos R_earth_pos]
  have hhicos : 1 / Real.sqrt (1 + ((|zc| + R_earth) / rho) ^ 2) ≤ cos (geoHi rho zc) := by
    unfold geoHi
    apply endpoint_cos_lb rho zc _ hρ
    calc |zc + R_earth| ≤ |zc| + |R_earth| := abs_add _ _
      _ = |zc| + R_earth := by rw [abs_of_pos R_earth_pos]
  have hlo2 : -(π / 2) < geoLo rho zc := Real.neg_pi_div_two_lt_arctan _
  have hhi2 : geoHi rho zc < π / 2 := Real.arctan_lt_pi_div_two _
  have hcx : 1 / Real.sqrt (1 + ((|zc| + R_earth) / rho) ^ 2) ≤ cos x :=
    le_trans (le_min hlocos hhicos) (cos_ge_min hlo2 hhi2 hx1 (le_trans hx2 hy2))
  have hcy : 1 / Real.sqrt (1 + ((|zc| + R_earth) / rho) ^ 2) ≤ cos y :=
    le_trans (le_min hlocos hhicos) (cos_ge_min hlo2 hhi2 (le_trans hx1 hx2) hy2)
  have htan := tan_diff_bound x y _ hcminpos hcx hcy
  have hcmin2 : (1 / Real.sqrt (1 + ((|zc| + R_earth) / rho) ^ 2)) ^ 2
      = 1 / (1 + ((|zc| + R_earth) / rho) ^ 2) := by
    rw [div_pow, one_pow, hsq]
  have htan' : |tan y - tan x| ≤ (1 + ((|zc| + R_earth) / rho) ^ 2) * (y - x) := by
    have hrewr : (y - x) / (1 / (1 + ((|zc| + R_earth) / rho) ^ 2))
        = (y - x) * (1 + ((|zc| + R_earth) / rho) ^ 2) := by
      field_simp
    rw [hcmin2, abs_of_nonneg (show (0:ℝ) ≤ y - x by linarith), hrewr] at htan
    linarith [htan]
  have hns := nsin_diff x y
  rw [abs_of_nonneg (show (0:ℝ) ≤ y - x by linarith)] at hns
  have hsplit : geoResidual rho zc y - geoResidual rho zc x
      = rho * (tan y - tan x) - (e2g * nRad y * sin y - e2g * nRad x * sin x) := by
    unfold geoResidual
    ring
  rw [hsplit]
  have htri : |rho * (tan y - tan x) - (e2g * nRad y * sin y - e2g * nRad x * sin x)|
      ≤ rho * |tan y - tan x| + |e2g * nRad y * sin y - e2g * nRad x * sin x| := by
    have h := abs_add (rho * (tan y - tan x))
      (-(e2g * nRad y * sin y - e2g * nRad x * sin x))
    rw [abs_neg, abs_mul, abs_of_pos hρ] at h
    have h2 : rho * (tan y - tan x) + -(e2g * nRad y * sin y - e2g * nRad x * sin x)
        = rho * (tan y - tan x) - (e2g * nRad y * sin y - e2g * nRad x * sin x) := by ring
    rw [h2] at h
    exact h
  unfold geoLip
  nlinarith [htan', hρ]

theorem rad_deg_id (t : ℝ) : rad_of_deg (deg_of_rad t) = t := by
  unfold rad_of_deg deg_of_rad
  field_simp

theorem geoLip_pos (rho zc : ℝ) (hρ : 0 < rho) : 0 < geoLip rho zc := by
  unfold geoLip
  nlinarith [sq_nonneg ((|zc| + R_earth) / rho), R_earth_pos]

theorem e2g_nsin_small (t : ℝ) : e2g * nRad t * sin t ≤ R_earth ∧
    -R_earth ≤ e2g * nRad t * sin t := by
  have hN1 := nRad_pos t
  have hN2 := nRad_ub t
  have hs1 := Real.neg_one_le_sin t
  have hs2 := Real.sin_le_one t
  have hkey : e2g * (R_earth / 0.9) ≤ R_earth := by
    norm_num [e2g, flat, R_earth]
  have ht1 : 0 ≤ e2g * nRad t := (mul_pos e2g_pos hN1).le
  have ht2 : e2g * nRad t ≤ e2g * (R_earth / 0.9) :=
    mul_le_mul_of_nonneg_left hN2 e2g_pos.le
  have hp1 : 0 ≤ e2g * nRad t * (1 - sin t) := mul_nonneg ht1 (by linarith)
  have hp2 : 0 ≤ e2g * nRad t * (1 + sin t) := mul_nonneg ht1 (by linarith)
  constructor <;> nlinarith

theorem geoRes_lo (rho zc : ℝ) (hρ : 0 < rho) : geoResidual rho zc (geoLo rho zc) ≤ 0 := by
  unfold geoResidual geoLo
  rw [Real.tan_arctan]
  have h1 : rho * ((zc - R_earth) / rho) = zc - R_earth := by
    field_simp
  rw [h1]
  have h2 := (e2g_nsin_small (arctan ((zc - R_earth) / rho))).2
  linarith

theorem geoRes_hi (rho zc : ℝ) (hρ : 0 < rho) : 0 ≤ geoResidual rho zc (geoHi rho zc) := by
  unfold geoResidual geoHi
  rw [Real.tan_arctan]
  have h1 : rho * ((zc + R_earth) / rho) = zc + R_earth := by
    field_simp
  rw [h1]
  have h2 := (e2g_nsin_small (arctan ((zc + R_earth) / rho))).1
  linarith

theorem geoLo_le_geoHi (rho zc : ℝ) (hρ : 0 < rho) : geoLo rho zc ≤ geoHi rho zc := by
  unfold geoLo geoHi
  apply Real.arctan_strictMono.monotone
  rw [div_le_div_iff hρ hρ]
  nlinarith [R_earth_pos]

theorem two_pow_ceil_logb (X : ℝ) (hX : 0 < X) :
    X ≤ 2 ^ Nat.ceil (Real.logb 2 X) := by
  rcases le_or_lt X 1 with h | h
  · calc X ≤ 1 := h
      _ ≤ 2 ^ Nat.ceil (Real.logb 2 X) := one_le_pow₀ (by norm_num)
  · have h1 : Real.logb 2 X ≤ (Nat.ceil (Real.logb 2 X) : ℝ) := Nat.le_ceil _
    have h2 : X = (2 : ℝ) ^ Real.logb 2 X :=
      (Real.rpow_logb (by norm_num) (by norm_num) hX).symm
    have h3 : (2 : ℝ) ^ Real.logb 2 X ≤ (2 : ℝ) ^ ((Nat.ceil (Real.logb 2 X) : ℕ) : ℝ) :=
      (Real.rpow_le_rpow_left_iff (by norm_num)).2 h1
    rw [Real.rpow_natCast] at h3
    linarith [h2 ▸ h3]

theorem geoFuel_bound (rho zc tol : ℝ) (hρ : 0 < rho) (htol : 0 < tol) :
    geoLip rho zc * (geoHi rho zc - geoLo rho zc)
      ≤ 2 ^ (geoFuel rho zc tol - 1) * tol := by
  have hπ := Real.pi_pos
  have hL := geoLip_pos rho zc hρ
  have hwidth : geoHi rho zc - geoLo rho zc ≤ π := by
    have h1 := Real.arctan_lt_pi_div_two ((zc + R_earth) / rho)
    have h2 := Real.neg_pi_div_two_lt_arctan ((zc - R_earth) / rho)
    unfold geoHi geoLo
    linarith
  have hn : geoFuel rho zc tol - 1 = Nat.ceil (Real.logb 2 (geoLip rho zc * π / tol)) := by
    unfold geoFuel
    omega
  rw [hn]
  have hX := two_pow_ceil_logb (geoLip rho zc * π / tol) (by positivity)
  rw [div_le_iff₀ htol] at hX
  have hmono : geoLip rho zc * (geoHi rho zc - geoLo rho zc) ≤ geoLip rho zc * π :=
    mul_le_mul_of_nonneg_left hwidth hL.le
  linarith

/-- C9: for every input on the polar axis away from the geocenter (x = y = 0,
z ≠ 0), `ITRSToLatLonAlt` succeeds and returns longitude 0 rather than failing
on the atan2(0,0) singularity. -/
theorem nsin_diff_tight (x y : ℝ) :
    |e2g * nRad y * sin y - e2g * nRad x * sin x| ≤ 54 * |y - x| := by
  have hwx := w_lat_pos x
  have hwy := w_lat_pos y
  have hlbx := le_trans sqrt_1me2g_lb (w_lat_lb x)
  have hlby := le_trans sqrt_1me2g_lb (w_lat_lb y)
  have hubx := w_lat_ub x
  have huby := w_lat_ub y
  have key : e2g * nRad y * sin y - e2g * nRad x * sin x
      = e2g * R_earth * ((sin y * Real.sqrt (1 - e2g * sin x ^ 2)
          - sin x * Real.sqrt (1 - e2g * sin y ^ 2))
        / (Real.sqrt (1 - e2g * sin y ^ 2) * Real.sqrt (1 - e2g * sin x ^ 2))) := by
    unfold nRad
    field_simp
    ring
  rw [key]
  have hnum : |sin y * Real.sqrt (1 - e2g * sin x ^ 2)
      - sin x * Real.sqrt (1 - e2g * sin y ^ 2)|
      ≤ |sin y - sin x| + |Real.sqrt (1 - e2g * sin x ^ 2)
          - Real.sqrt (1 - e2g * sin y ^ 2)| := by
    have hsplit : sin y * Real.sqrt (1 - e2g * sin x ^ 2)
        - sin x * Real.sqrt (1 - e2g * sin y ^ 2)
        = (sin y - sin x) * Real.sqrt (1 - e2g * sin x ^ 2)
          + sin x * (Real.sqrt (1 - e2g * sin x ^ 2) - Real.sqrt (1 - e2g * sin y ^ 2)) := by
      ring
    rw [hsplit]
    calc |(sin y - sin x) * Real.sqrt (1 - e2g * sin x ^ 2)
        + sin x * (Real.sqrt (1 - e2g * sin x ^ 2) - Real.sqrt (1 - e2g * sin y ^ 2))|
        ≤ |(sin y - sin x) * Real.sqrt (1 - e2g * sin x ^ 2)|
          + |sin x * (Real.sqrt (1 - e2g * sin x ^ 2) - Real.sqrt (1 - e2g * sin y ^ 2))| :=
          abs_add _ _
      _ ≤ |sin y - sin x| + |Real.sqrt (1 - e2g * sin x ^ 2)
          - Real.sqrt (1 - e2g * sin y ^ 2)| := by
          rw [abs_mul, abs_mul]
          have h1 : |Real.sqrt (1 - e2g * sin x ^ 2)| ≤ 1 := by
            rw [abs_of_pos hwx]
            exact hubx
          have h2 : |sin x| ≤ 1 := Real.abs_sin_le_one x
          nlinarith [abs_nonneg (sin y - sin x),
            abs_nonneg (Real.sqrt (1 - e2g * sin x ^ 2) - Real.sqrt (1 - e2g * sin y ^ 2))]
  have hwdiff : |Real.sqrt (1 - e2g * sin x ^ 2) - Real.sqrt (1 - e2g * sin y ^ 2)|
      ≤ e2g / 0.9 * |sin y - sin x| := by
    have h := w_lat_diff y x
    rw [abs_sub_comm (sin x) (sin y)] at h
    exact h
  have hsinb := abs_sin_sub_sin x y
  have hdenom : (0.81 : ℝ) ≤ Real.sqrt (1 - e2g * sin y ^ 2)
      * Real.sqrt (1 - e2g * sin x ^ 2) := by nlinarith
  rw [abs_mul, abs_mul, abs_div, abs_of_pos e2g_pos, abs_of_pos R_earth_pos,
    abs_of_pos (mul_pos hwy hwx), mul_div_assoc']
  rw [div_le_iff₀ (mul_pos hwy hwx)]
  have h4 := mul_le_mul_of_nonneg_left hsinb (le_of_lt e2g_pos)
  have hnum2 : |sin y * Real.sqrt (1 - e2g * sin x ^ 2)
      - sin x * Real.sqrt (1 - e2g * sin y ^ 2)| ≤ (1 + e2g / 0.9) * |y - x| := by
    ring_nf at hnum hwdiff hsinb h4 ⊢
    linarith
  have hA : e2g * R_earth * |sin y * Real.sqrt (1 - e2g * sin x ^ 2)
      - sin x * Real.sqrt (1 - e2g * sin y ^ 2)|
      ≤ e2g * R_earth * ((1 + e2g / 0.9) * |y - x|) := by
    have h := mul_le_mul_of_nonneg_left hnum2 (le_of_lt (mul_pos e2g_pos R_earth_pos))
    ring_nf at h ⊢
    linarith
  have hcoef : e2g + e2g ^ 2 / 0.9 ≤ 0.006745 := by
    norm_num [e2g, flat]
  have hP : 0 ≤ R_earth * |y - x| := mul_nonneg R_earth_pos.le (abs_nonneg _)
  have hB : e2g * R_earth * ((1 + e2g / 0.9) * |y - x|)
      ≤ 0.006745 * R_earth * |y - x| := by
    have h := mul_le_mul_of_nonneg_right hcoef hP
    ring_nf at h ⊢
    linarith
  have hC : (0.006745 : ℝ) * R_earth * |y - x| ≤ 54 * |y - x|
      * (Real.sqrt (1 - e2g * sin y ^ 2) * Real.sqrt (1 - e2g * sin x ^ 2)) := by
    have h := mul_le_mul_of_nonneg_left hdenom
      (mul_nonneg (show (0:ℝ) ≤ 54 by norm_num) (abs_nonneg (y - x)))
    have hc2 : (0.006745 : ℝ) * R_earth ≤ 54 * 0.81 := by norm_num [R_earth]
    have h3 := mul_le_mul_of_nonneg_right hc2 (abs_nonneg (y - x))
    ring_nf at h h3 ⊢
    linarith
  linarith

theorem geoRes_strict (rho zc a b : ℝ) (hρ : 100 ≤ rho) (hab : a < b) (hw : b - a ≤ 1.4)
    (hca : 0 < cos a) (hcb : 0 < cos b) :
    geoResidual rho zc a < geoResidual rho zc b := by
  unfold geoResidual
  have htd := tan_diff a b (ne_of_gt hca) (ne_of_gt hcb)
  have hsin_nn : 0 ≤ sin (b - a) :=
    Real.sin_nonneg_of_nonneg_of_le_pi (by linarith) (by nlinarith [Real.pi_gt_three])
  have hsl := sin_lb_lin (b - a) (by linarith) hw
  have hccle : cos a * cos b ≤ 1 := by
    nlinarith [Real.cos_le_one a, Real.cos_le_one b]
  have hccpos : 0 < cos a * cos b := mul_pos hca hcb
  have htan : sin (b - a) ≤ tan b - tan a := by
    rw [htd, le_div_iff₀ hccpos]
    nlinarith
  have hH := (abs_le.1 (nsin_diff_tight a b)).2
  rw [abs_of_pos (by linarith : (0:ℝ) < b - a)] at hH
  have hmul := mul_le_mul hρ (le_trans hsl htan)
    (by nlinarith) (by linarith)
  nlinarith

/-- Evaluation of the non-polar branch of `ITRSToLatLonAlt`: the latitude
solve succeeds and the returned triple is the latitude (in degrees), the
`atan2` longitude (in degrees), and the prime-vertical altitude, with the
solved latitude meeting the residual tolerance inside the bracket. -/
theorem geo_main_eval (r : Vec3) (hr : ¬(r.x = 0 ∧ r.y = 0 ∧ r.z = 0))
    (hρ0 : ¬ Real.sqrt (r.x ^ 2 + r.y ^ 2) = 0) :
    ∃ φ, ITRSToLatLonAlt r geo_tol
        = .ok (deg_of_rad φ, deg_of_rad (atan2 r.y r.x),
            Real.sqrt (r.x ^ 2 + r.y ^ 2) / cos φ - nRad φ) ∧
      |geoResidual (Real.sqrt (r.x ^ 2 + r.y ^ 2)) r.z φ| ≤ geo_tol ∧
      geoLo (Real.sqrt (r.x ^ 2 + r.y ^ 2)) r.z ≤ φ ∧
      φ ≤ geoHi (Real.sqrt (r.x ^ 2 + r.y ^ 2)) r.z := by
  simp only [ITRSToLatLonAlt]
  rw [if_neg hr, if_neg hρ0]
  have hρpos : 0 < Real.sqrt (r.x ^ 2 + r.y ^ 2) :=
    lt_of_le_of_ne (Real.sqrt_nonneg _) (Ne.symm hρ0)
  have htolpos : (0 : ℝ) < geo_tol := by norm_num [geo_tol]
  have hfuelpos : 0 < geoFuel (Real.sqrt (r.x ^ 2 + r.y ^ 2)) r.z geo_tol := by
    unfold geoFuel
    omega
  obtain ⟨φ, hφ⟩ := bisect_conv (geoResidual (Real.sqrt (r.x ^ 2 + r.y ^ 2)) r.z) geo_tol
    (geoLip (Real.sqrt (r.x ^ 2 + r.y ^ 2)) r.z) (geoLip_pos _ _ hρpos).le
    (geoFuel (Real.sqrt (r.x ^ 2 + r.y ^ 2)) r.z geo_tol - 1)
    (geoFuel (Real.sqrt (r.x ^ 2 + r.y ^ 2)) r.z geo_tol)
    (geoLo (Real.sqrt (r.x ^ 2 + r.y ^ 2)) r.z)
    (geoHi (Real.sqrt (r.x ^ 2 + r.y ^ 2)) r.z)
    (Nat.sub_lt hfuelpos one_pos) (geoLo_le_geoHi _ _ hρpos)
    (fun a b ha hab hb => geoResidual_lipschitz _ _ hρpos a b ha hab hb)
    (geoRes_lo _ _ hρpos) (geoRes_hi _ _ hρpos)
    (geoFuel_bound _ _ _ hρpos htolpos)
  rw [hφ]
  have hmem := bisect_ok_mem _ _ _ _ _ _ (geoLo_le_geoHi _ _ hρpos) hφ
  have hres := bisect_ok_residual _ _ _ _ _ _ hφ
  exact ⟨φ, rfl, hres, hmem.1, hmem.2⟩

theorem polar_axis_longitude_zero (z : ℝ) (hz : z ≠ 0) :
    ∃ lat alt, ITRSToLatLonAlt ⟨0, 0, z⟩ geo_tol = .ok (lat, 0, alt) := by
  simp only [ITRSToLatLonAlt]
  rw [if_neg (show ¬(True ∧ True ∧ z = 0) from fun hc => hz hc.2.2)]
  rw [if_pos (show Real.sqrt ((0 : ℝ) ^ 2 + 0 ^ 2) = 0 by norm_num)]
  refine ⟨deg_of_rad (if 0 ≤ z then π / 2 else -(π / 2)),
    |z| - R_earth * Real.sqrt (1 - e2g), ?_⟩
  rw [atan2_zero_zero]
  norm_num [deg_of_rad]

theorem polar_axis_longitude_zero_witness :
    ∃ lat alt, ITRSToLatLonAlt ⟨0, 0, 6500⟩ geo_tol = .ok (lat, 0, alt) :=
  polar_axis_longitude_zero 6500 (by norm_num)

set_option maxHeartbeats 6400000 in
/-- C4: for every Cartesian point other than the geocenter, `ITRSToLatLonAlt`
succeeds and `LatLonAltToITRS` applied to the result reproduces the original
vector within 1e-6 km (the modelled latitude solve stops at a 1e-9 km
reconstruction residual); in particular the scenario vector
(-5413.11749016, 4960.20830485, 3177.18312508) km converts to approximately
latitude 23.5119 degrees, longitude 137.5000 degrees and altitude
1625.246 km (within 1e-2 degree and 1e-1 km respectively). -/
theorem geodetic_roundtrip :
    (∀ r : Vec3, ¬(r.x = 0 ∧ r.y = 0 ∧ r.z = 0) →
      ∃ lat lon alt, ITRSToLatLonAlt r geo_tol = .ok (lat, lon, alt) ∧
        Vec3.norm (Vec3.sub (LatLonAltToITRS lat lon alt) r) ≤ 1e-6) ∧
    (∃ lat lon alt,
      ITRSToLatLonAlt ⟨-5413.11749016, 4960.20830485, 3177.18312508⟩ geo_tol
        = .ok (lat, lon, alt) ∧
      |lat - 23.5119| ≤ 1e-2 ∧ |lon - 137.5| ≤ 1e-2 ∧ |alt - 1625.246| ≤ 1e-1) := by
  have hπ := Real.pi_pos
  have hπ1 := Real.pi_gt_3141592
  have hπ2 := Real.pi_lt_3141593
  constructor
  · intro r hr
    by_cases hρ0 : Real.sqrt (r.x ^ 2 + r.y ^ 2) = 0
    · simp only [ITRSToLatLonAlt]
      rw [if_neg hr, if_pos hρ0]
      have hsum : r.x ^ 2 + r.y ^ 2 = 0 := (Real.sqrt_eq_zero (by positivity)).1 hρ0
      have hx : r.x = 0 := by
        have h2 : r.x ^ 2 = 0 := by nlinarith [sq_nonneg r.x, sq_nonneg r.y]
        exact pow_eq_zero_iff (by norm_num) |>.1 h2
      have hy : r.y = 0 := by
        have h2 : r.y ^ 2 = 0 := by nlinarith [sq_nonneg r.x, sq_nonneg r.y]
        exact pow_eq_zero_iff (by norm_num) |>.1 h2
      have hz : r.z ≠ 0 := fun h0 => hr ⟨hx, hy, h0⟩
      refine ⟨_, _, _, rfl, ?_⟩
      have hrw : LatLonAltToITRS (deg_of_rad (if 0 ≤ r.z then π / 2 else -(π / 2)))
          (deg_of_rad (atan2 r.y r.x)) (|r.z| - R_earth * Real.sqrt (1 - e2g))
          = geoFwdRad (if 0 ≤ r.z then π / 2 else -(π / 2)) (atan2 r.y r.x)
            (|r.z| - R_earth * Real.sqrt (1 - e2g)) := by
        unfold LatLonAltToITRS
        rw [rad_deg_id, rad_deg_id]
      rw [hrw]
      have hNdiv : R_earth / Real.sqrt (1 - e2g) * (1 - e2g) = R_earth * Real.sqrt (1 - e2g) := by
        rw [div_mul_eq_mul_div, mul_div_assoc, Real.div_sqrt]
      by_cases hzs : 0 ≤ r.z
      · rw [if_pos hzs]
        have hfwd : geoFwdRad (π / 2) (atan2 r.y r.x) (|r.z| - R_earth * Real.sqrt (1 - e2g))
            = ⟨0, 0, r.z⟩ := by
          unfold geoFwdRad nRad
          apply Vec3.ext3
          · show (R_earth / Real.sqrt (1 - e2g * sin (π / 2) ^ 2)
                + (|r.z| - R_earth * Real.sqrt (1 - e2g))) * cos (π / 2) * cos (atan2 r.y r.x) = 0
            rw [Real.cos_pi_div_two]
            ring
          · show (R_earth / Real.sqrt (1 - e2g * sin (π / 2) ^ 2)
                + (|r.z| - R_earth * Real.sqrt (1 - e2g))) * cos (π / 2) * sin (atan2 r.y r.x) = 0
            rw [Real.cos_pi_div_two]
            ring
          · show (R_earth / Real.sqrt (1 - e2g * sin (π / 2) ^ 2) * (1 - e2g)
                + (|r.z| - R_earth * Real.sqrt (1 - e2g))) * sin (π / 2) = r.z
            rw [Real.sin_pi_div_two]
            rw [show (1 : ℝ) ^ 2 = 1 by norm_num, mul_one, mul_one, hNdiv,
              abs_of_nonneg hzs]
            ring
        rw [hfwd]
        have hsub : Vec3.sub ⟨0, 0, r.z⟩ r = ⟨0, 0, 0⟩ := by
          apply Vec3.ext3 <;> simp [Vec3.sub, hx, hy]
        rw [hsub, Vec3.norm_zero]
        norm_num
      · rw [if_neg hzs]
        push_neg at hzs
        have hfwd : geoFwdRad (-(π / 2)) (atan2 r.y r.x) (|r.z| - R_earth * Real.sqrt (1 - e2g))
            = ⟨0, 0, r.z⟩ := by
          unfold geoFwdRad nRad
          apply Vec3.ext3
          · show (R_earth / Real.sqrt (1 - e2g * sin (-(π / 2)) ^ 2)
                + (|r.z| - R_earth * Real.sqrt (1 - e2g))) * cos (-(π / 2))
                  * cos (atan2 r.y r.x) = 0
            rw [Real.cos_neg, Real.cos_pi_div_two]
            ring
          · show (R_earth / Real.sqrt (1 - e2g * sin (-(π / 2)) ^ 2)
                + (|r.z| - R_earth * Real.sqrt (1 - e2g))) * cos (-(π / 2))
                  * sin (atan2 r.y r.x) = 0
            rw [Real.cos_neg, Real.cos_pi_div_two]
            ring
          · show (R_earth / Real.sqrt (1 - e2g * sin (-(π / 2)) ^ 2) * (1 - e2g)
                + (|r.z| - R_earth * Real.sqrt (1 - e2g))) * sin (-(π / 2)) = r.z
            rw [Real.sin_neg, Real.sin_pi_div_two]
            rw [show (-(1:ℝ)) ^ 2 = 1 by norm_num, mul_one, hNdiv, abs_of_neg hzs]
            ring
        rw [hfwd]
        have hsub : Vec3.sub ⟨0, 0, r.z⟩ r = ⟨0, 0, 0⟩ := by
          apply Vec3.ext3 <;> simp [Vec3.sub, hx, hy]
        rw [hsub, Vec3.norm_zero]
        norm_num
    · obtain ⟨φ, heq, hres, hlo, hhi⟩ := geo_main_eval r hr hρ0
      have hρpos : 0 < Real.sqrt (r.x ^ 2 + r.y ^ 2) :=
        lt_of_le_of_ne (Real.sqrt_nonneg _) (Ne.symm hρ0)
      refine ⟨_, _, _, heq, ?_⟩
      have hφlo : -(π / 2) < φ :=
        lt_of_lt_of_le (Real.neg_pi_div_two_lt_arctan _) hlo
      have hφhi : φ < π / 2 := lt_of_le_of_lt hhi (Real.arctan_lt_pi_div_two _)
      have hcosφ : 0 < cos φ := Real.cos_pos_of_mem_Ioo ⟨hφlo, hφhi⟩
      have hrw : LatLonAltToITRS (deg_of_rad φ) (deg_of_rad (atan2 r.y r.x))
          (Real.sqrt (r.x ^ 2 + r.y ^ 2) / cos φ - nRad φ)
          = geoFwdRad φ (atan2 r.y r.x) (Real.sqrt (r.x ^ 2 + r.y ^ 2) / cos φ - nRad φ) := by
        unfold LatLonAltToITRS
        rw [rad_deg_id, rad_deg_id]
      rw [hrw]
      have hxyne : ¬(r.x = 0 ∧ r.y = 0) := by
        intro hc
        apply hρ0
        rw [hc.1, hc.2]
        norm_num
      have hlc := cos_atan2 r.y r.x hxyne
      have hls := sin_atan2 r.y r.x
      have hsub : Vec3.sub
          (geoFwdRad φ (atan2 r.y r.x) (Real.sqrt (r.x ^ 2 + r.y ^ 2) / cos φ - nRad φ)) r
          = ⟨0, 0, geoResidual (Real.sqrt (r.x ^ 2 + r.y ^ 2)) r.z φ⟩ := by
        apply Vec3.ext3
        · show (nRad φ + (Real.sqrt (r.x ^ 2 + r.y ^ 2) / cos φ - nRad φ)) * cos φ
              * cos (atan2 r.y r.x) - r.x = 0
          rw [hlc]
          field_simp
          ring
        · show (nRad φ + (Real.sqrt (r.x ^ 2 + r.y ^ 2) / cos φ - nRad φ)) * cos φ
              * sin (atan2 r.y r.x) - r.y = 0
          rw [hls]
          field_simp
          ring
        · show (nRad φ * (1 - e2g) + (Real.sqrt (r.x ^ 2 + r.y ^ 2) / cos φ - nRad φ)) * sin φ
              - r.z = Real.sqrt (r.x ^ 2 + r.y ^ 2) * tan φ - e2g * nRad φ * sin φ - r.z
          rw [Real.tan_eq_sin_div_cos]
          field_simp
          ring
      rw [hsub]
      have hnorm : Vec3.norm ⟨0, 0, geoResidual (Real.sqrt (r.x ^ 2 + r.y ^ 2)) r.z φ⟩
          = |geoResidual (Real.sqrt (r.x ^ 2 + r.y ^ 2)) r.z φ| := by
        unfold Vec3.norm
        rw [show Vec3.dot ⟨0, 0, geoResidual (Real.sqrt (r.x ^ 2 + r.y ^ 2)) r.z φ⟩
            ⟨0, 0, geoResidual (Real.sqrt (r.x ^ 2 + r.y ^ 2)) r.z φ⟩
            = geoResidual (Real.sqrt (r.x ^ 2 + r.y ^ 2)) r.z φ ^ 2 by
          simp [Vec3.dot]
          ring]
        exact Real.sqrt_sq_eq_abs _
      rw [hnorm]
      calc |geoResidual (Real.sqrt (r.x ^ 2 + r.y ^ 2)) r.z φ| ≤ geo_tol := hres
        _ ≤ 1e-6 := by norm_num [geo_tol]
  · have hS1 : (7342.0370054760:ℝ) ^ 2
        ≤ (-5413.11749016:ℝ) ^ 2 + (4960.20830485:ℝ) ^ 2 := by norm_num
    have hS2 : (-5413.11749016:ℝ) ^ 2 + (4960.20830485:ℝ) ^ 2
        ≤ (7342.0370054761:ℝ) ^ 2 := by norm_num
    obtain ⟨hρ1, hρ2⟩ := sqrt_between ((-5413.11749016:ℝ) ^ 2 + (4960.20830485:ℝ) ^ 2)
      7342.0370054760 7342.0370054761 (by norm_num) (by norm_num) hS1 hS2
    have hρpos : 0 < Real.sqrt ((-5413.11749016:ℝ) ^ 2 + (4960.20830485:ℝ) ^ 2) :=
      lt_of_lt_of_le (by norm_num) hρ1
    obtain ⟨φ, heq, hres, hlo, hhi⟩ :=
      geo_main_eval ⟨-5413.11749016, 4960.20830485, 3177.18312508⟩
        (fun hc => absurd hc.1 (by norm_num)) (by exact hρpos.ne')
    have hX : (⟨-5413.11749016, 4960.20830485, 3177.18312508⟩ : Vec3).x
        = -5413.11749016 := rfl
    have hY : (⟨-5413.11749016, 4960.20830485, 3177.18312508⟩ : Vec3).y
        = 4960.20830485 := rfl
    have hZc : (⟨-5413.11749016, 4960.20830485, 3177.18312508⟩ : Vec3).z
        = 3177.18312508 := rfl
    rw [hX, hY] at heq
    rw [hX, hY, hZc] at hres hlo hhi
    have hsp1 : (0.398921582593:ℝ) ≤ sin 0.4103405 := by
      have h := sin_taylor 0.4103405 (by
        rw [abs_of_nonneg (by norm_num : (0:ℝ) ≤ 0.4103405)]
        norm_num)
      rw [abs_of_nonneg (by norm_num : (0:ℝ) ≤ 0.4103405), abs_le] at h
      nlinarith [h.1]
    have hsp2 : sin 0.4103405 ≤ 0.398921584614 := by
      have h := sin_taylor 0.4103405 (by
        rw [abs_of_nonneg (by norm_num : (0:ℝ) ≤ 0.4103405)]
        norm_num)
      rw [abs_of_nonneg (by norm_num : (0:ℝ) ≤ 0.4103405), abs_le] at h
      nlinarith [h.2]
    have hcp1 : (0.916985043173:ℝ) ≤ cos 0.4103405 := by
      have h := cos_taylor 0.4103405 (by
        rw [abs_of_nonneg (by norm_num : (0:ℝ) ≤ 0.4103405)]
        norm_num)
      rw [abs_of_nonneg (by norm_num : (0:ℝ) ≤ 0.4103405), abs_le] at h
      nlinarith [h.1]
    have hcp2 : cos 0.4103405 ≤ 0.916985043256 := by
      have h := cos_taylor 0.4103405 (by
        rw [abs_of_nonneg (by norm_num : (0:ℝ) ≤ 0.4103405)]
        norm_num)
      rw [abs_of_nonneg (by norm_num : (0:ℝ) ≤ 0.4103405), abs_le] at h
      nlinarith [h.2]
    have hsq1 : (0.398958261674:ℝ) ≤ sin 0.4103805 := by
      have h := sin_taylor 0.4103805 (by
        rw [abs_of_nonneg (by norm_num : (0:ℝ) ≤ 0.4103805)]
        norm_num)
      rw [abs_of_nonneg (by norm_num : (0:ℝ) ≤ 0.4103805), abs_le] at h
      nlinarith [h.1]
    have hsq2 : sin 0.4103805 ≤ 0.398958263697 := by
      have h := sin_taylor 0.4103805 (by
        rw [abs_of_nonneg (by norm_num : (0:ℝ) ≤ 0.4103805)]
        norm_num)
      rw [abs_of_nonneg (by norm_num : (0:ℝ) ≤ 0.4103805), abs_le] at h
      nlinarith [h.2]
    have hcq1 : (0.916969085576:ℝ) ≤ cos 0.4103805 := by
      have h := cos_taylor 0.4103805 (by
        rw [abs_of_nonneg (by norm_num : (0:ℝ) ≤ 0.4103805)]
        norm_num)
      rw [abs_of_nonneg (by norm_num : (0:ℝ) ≤ 0.4103805), abs_le] at h
      nlinarith [h.1]
    have hcq2 : cos 0.4103805 ≤ 0.916969085659 := by
      have h := cos_taylor 0.4103805 (by
        rw [abs_of_nonneg (by norm_num : (0:ℝ) ≤ 0.4103805)]
        norm_num)
      rw [abs_of_nonneg (by norm_num : (0:ℝ) ≤ 0.4103805), abs_le] at h
      nlinarith [h.2]
    have hcu11 : (0.696751467911:ℝ) ≤ cos 0.7999376 := by
      have h := cos_taylor 0.7999376 (by
        rw [abs_of_nonneg (by norm_num : (0:ℝ) ≤ 0.7999376)]
        norm_num)
      rw [abs_of_nonneg (by norm_num : (0:ℝ) ≤ 0.7999376), abs_le] at h
      nlinarith [h.1]
    have hcu21 : (0.696744294749:ℝ) ≤ cos 0.7999476 := by
      have h := cos_taylor 0.7999476 (by
        rw [abs_of_nonneg (by norm_num : (0:ℝ) ≤ 0.7999476)]
        norm_num)
      rw [abs_of_nonneg (by norm_num : (0:ℝ) ≤ 0.7999476), abs_le] at h
      nlinarith [h.1]
    have hcu22 : cos 0.7999476 ≤ 0.696744359805 := by
      have h := cos_taylor 0.7999476 (by
        rw [abs_of_nonneg (by norm_num : (0:ℝ) ≤ 0.7999476)]
        norm_num)
      rw [abs_of_nonneg (by norm_num : (0:ℝ) ≤ 0.7999476), abs_le] at h
      nlinarith [h.2]
    have hs92 : (0.795598883121:ℝ) ≤ sin 0.92 := by
      have h := sin_taylor 0.92 (by
        rw [abs_of_nonneg (by norm_num : (0:ℝ) ≤ 0.92)]
        norm_num)
      rw [abs_of_nonneg (by norm_num : (0:ℝ) ≤ 0.92), abs_le] at h
      nlinarith [h.1]
    have hc92 : cos 0.92 ≤ 0.605820407262 := by
      have h := cos_taylor 0.92 (by
        rw [abs_of_nonneg (by norm_num : (0:ℝ) ≤ 0.92)]
        norm_num)
      rw [abs_of_nonneg (by norm_num : (0:ℝ) ≤ 0.92), abs_le] at h
      nlinarith [h.2]
    have hcp_pos : (0:ℝ) < cos 0.4103405 := by linarith
    have hcq_pos : (0:ℝ) < cos 0.4103805 := by linarith
    have hFp : geoResidual (Real.sqrt ((-5413.11749016:ℝ) ^ 2 + (4960.20830485:ℝ) ^ 2))
        3177.18312508 0.4103405 < -(1e-9) := by
      unfold geoResidual nRad
      rw [Real.tan_eq_sin_div_cos]
      have htan_le : sin 0.4103405 / cos 0.4103405
          ≤ (0.398921584614:ℝ) / 0.916985043173 := by
        rw [div_le_div_iff hcp_pos (by norm_num)]
        have ha1 := mul_le_mul_of_nonneg_right hsp2
          (show (0:ℝ) ≤ 0.916985043173 by norm_num)
        have ha2 := mul_le_mul_of_nonneg_left hcp1
          (show (0:ℝ) ≤ 0.398921584614 by norm_num)
        linarith
      have htan_nn : 0 ≤ sin 0.4103405 / cos 0.4103405 :=
        div_nonneg (by linarith) hcp_pos.le
      have ht := mul_le_mul hρ2 htan_le htan_nn (by norm_num)
      have hsinsq : (0.398921582593:ℝ) ^ 2 ≤ sin 0.4103405 ^ 2 :=
        pow_le_pow_left₀ (by norm_num) hsp1 2
      have hw_le : Real.sqrt (1 - e2g * sin 0.4103405 ^ 2) ≤ 0.999467191500 := by
        have h1 := mul_le_mul_of_nonneg_left hsinsq e2g_pos.le
        have h2 : (1:ℝ) - e2g * (0.398921582593:ℝ) ^ 2 ≤ (0.999467191500:ℝ) ^ 2 := by
          norm_num [e2g, flat]
        exact (Real.sqrt_le_sqrt (by linarith)).trans_eq (Real.sqrt_sq (by norm_num))
      have hwpos := w_lat_pos 0.4103405
      have hN_ge : R_earth / (0.999467191500:ℝ)
          ≤ R_earth / Real.sqrt (1 - e2g * sin 0.4103405 ^ 2) :=
        div_le_div_of_nonneg_left R_earth_pos.le hwpos hw_le
      have hnn : 0 ≤ e2g * (R_earth / Real.sqrt (1 - e2g * sin 0.4103405 ^ 2)) :=
        mul_nonneg e2g_pos.le (div_nonneg R_earth_pos.le hwpos.le)
      have hnsin_ge : e2g * (R_earth / (0.999467191500:ℝ)) * 0.398921582593
          ≤ e2g * (R_earth / Real.sqrt (1 - e2g * sin 0.4103405 ^ 2)) * sin 0.4103405 := by
        have h1 : e2g * (R_earth / (0.999467191500:ℝ))
            ≤ e2g * (R_earth / Real.sqrt (1 - e2g * sin 0.4103405 ^ 2)) :=
          mul_le_mul_of_nonneg_left hN_ge e2g_pos.le
        exact mul_le_mul h1 hsp1 (by norm_num) hnn
      have hfin : (7342.0370054761:ℝ) * ((0.398921584614:ℝ) / 0.916985043173)
          - e2g * (R_earth / (0.999467191500:ℝ)) * 0.398921582593
          - 3177.18312508 < -(1e-9) := by
        norm_num [e2g, flat, R_earth]
      linarith
    have hFq : (1e-9:ℝ) < geoResidual
        (Real.sqrt ((-5413.11749016:ℝ) ^ 2 + (4960.20830485:ℝ) ^ 2))
        3177.18312508 0.4103805 := by
      unfold geoResidual nRad
      rw [Real.tan_eq_sin_div_cos]
      have htan_ge : (0.398958261674:ℝ) / 0.916969085659
          ≤ sin 0.4103805 / cos 0.4103805 := by
        rw [div_le_div_iff (by norm_num) hcq_pos]
        have ha1 := mul_le_mul_of_nonneg_left hcq2
          (show (0:ℝ) ≤ 0.398958261674 by norm_num)
        have ha2 := mul_le_mul_of_nonneg_right hsq1
          (show (0:ℝ) ≤ 0.916969085659 by norm_num)
        linarith
      have ht := mul_le_mul hρ1 htan_ge (by norm_num) (Real.sqrt_nonneg _)
      have hsinsq : sin 0.4103805 ^ 2 ≤ (0.398958263697:ℝ) ^ 2 :=
        pow_le_pow_left₀ (by linarith) hsq2 2
      have hw_ge : (0.999467093485:ℝ) ≤ Real.sqrt (1 - e2g * sin 0.4103805 ^ 2) := by
        refine (Real.le_sqrt (by norm_num) (w_lat_arg_nonneg _)).2 ?_
        have h1 := mul_le_mul_of_nonneg_left hsinsq e2g_pos.le
        have h2 : (0.999467093485:ℝ) ^ 2 ≤ 1 - e2g * (0.398958263697:ℝ) ^ 2 := by
          norm_num [e2g, flat]
        linarith
      have hwpos := w_lat_pos 0.4103805
      have hN_le : R_earth / Real.sqrt (1 - e2g * sin 0.4103805 ^ 2)
          ≤ R_earth / (0.999467093485:ℝ) :=
        div_le_div_of_nonneg_left R_earth_pos.le (by norm_num) hw_ge
      have hnsin_le : e2g * (R_earth / Real.sqrt (1 - e2g * sin 0.4103805 ^ 2)) * sin 0.4103805
          ≤ e2g * (R_earth / (0.999467093485:ℝ)) * 0.398958263697 := by
        have h1 : e2g * (R_earth / Real.sqrt (1 - e2g * sin 0.4103805 ^ 2))
            ≤ e2g * (R_earth / (0.999467093485:ℝ)) :=
          mul_le_mul_of_nonneg_left hN_le e2g_pos.le
        exact mul_le_mul h1 hsq2 (by linarith)
          (mul_nonneg e2g_pos.le (div_nonneg R_earth_pos.le (by norm_num)))
      have hfin : (1e-9:ℝ) < (7342.0370054760:ℝ) * ((0.398958261674:ℝ) / 0.916969085659)
          - e2g * (R_earth / (0.999467093485:ℝ)) * 0.398958263697 - 3177.18312508 := by
        norm_num [e2g, flat, R_earth]
      linarith
    have hgeoLo_ge : (-0.44:ℝ)
        ≤ geoLo (Real.sqrt ((-5413.11749016:ℝ) ^ 2 + (4960.20830485:ℝ) ^ 2)) 3177.18312508 := by
      unfold geoLo
      have hzr_neg : ((3177.18312508:ℝ) - R_earth)
          / Real.sqrt ((-5413.11749016:ℝ) ^ 2 + (4960.20830485:ℝ) ^ 2) ≤ 0 :=
        le_of_lt (div_neg_of_neg_of_pos (by norm_num [R_earth]) hρpos)
      have h1 : ((3177.18312508:ℝ) - R_earth) / 7342.0370054760
          ≤ ((3177.18312508:ℝ) - R_earth)
            / Real.sqrt ((-5413.11749016:ℝ) ^ 2 + (4960.20830485:ℝ) ^ 2) := by
        rw [div_le_div_iff (by norm_num) hρpos]
        have hmm := mul_le_mul_of_nonpos_left hρ1
          (show (3177.18312508:ℝ) - R_earth ≤ 0 by norm_num [R_earth])
        linarith
      have h2 : (-0.44:ℝ) ≤ ((3177.18312508:ℝ) - R_earth) / 7342.0370054760 := by
        norm_num [R_earth]
      calc (-0.44:ℝ) ≤ ((3177.18312508:ℝ) - R_earth)
            / Real.sqrt ((-5413.11749016:ℝ) ^ 2 + (4960.20830485:ℝ) ^ 2) := by linarith
        _ ≤ arctan (((3177.18312508:ℝ) - R_earth)
            / Real.sqrt ((-5413.11749016:ℝ) ^ 2 + (4960.20830485:ℝ) ^ 2)) :=
          le_arctan_of_nonpos _ hzr_neg
    have hgeoHi_le : geoHi (Real.sqrt ((-5413.11749016:ℝ) ^ 2 + (4960.20830485:ℝ) ^ 2))
        3177.18312508 ≤ 0.92 := by
      unfold geoHi
      have hc92pos : (0:ℝ) < cos 0.92 :=
        Real.cos_pos_of_mem_Ioo ⟨by linarith, by linarith⟩
      have htan92 : ((3177.18312508:ℝ) + R_earth)
          / Real.sqrt ((-5413.11749016:ℝ) ^ 2 + (4960.20830485:ℝ) ^ 2) ≤ tan 0.92 := by
        rw [Real.tan_eq_sin_div_cos]
        have h1 : ((3177.18312508:ℝ) + R_earth)
            / Real.sqrt ((-5413.11749016:ℝ) ^ 2 + (4960.20830485:ℝ) ^ 2)
            ≤ ((3177.18312508:ℝ) + R_earth) / 7342.0370054760 :=
          div_le_div_of_nonneg_left (by norm_num [R_earth]) (by norm_num) hρ1
        have h2 : ((3177.18312508:ℝ) + R_earth) / 7342.0370054760
            ≤ (0.795598883121:ℝ) / 0.605820407262 := by
          norm_num [R_earth]
        have h3 : (0.795598883121:ℝ) / 0.605820407262 ≤ sin 0.92 / cos 0.92 := by
          rw [div_le_div_iff (by norm_num) hc92pos]
          have ha1 := mul_le_mul_of_nonneg_right hs92
            (show (0:ℝ) ≤ 0.605820407262 by norm_num)
          have ha2 := mul_le_mul_of_nonneg_left hc92
            (show (0:ℝ) ≤ 0.795598883121 by norm_num)
          linarith
        linarith
      calc arctan (((3177.18312508:ℝ) + R_earth)
            / Real.sqrt ((-5413.11749016:ℝ) ^ 2 + (4960.20830485:ℝ) ^ 2))
          ≤ arctan (tan 0.92) := Real.arctan_strictMono.monotone htan92
        _ = 0.92 := Real.arctan_tan (by linarith) (by linarith)
    have hφlo2 : -(π / 2) < φ := lt_of_lt_of_le (Real.neg_pi_div_two_lt_arctan _) hlo
    have hφhi2 : φ < π / 2 := lt_of_le_of_lt hhi (Real.arctan_lt_pi_div_two _)
    have hcosφ : 0 < cos φ := Real.cos_pos_of_mem_Ioo ⟨hφlo2, hφhi2⟩
    have hgt : geo_tol = (1e-9:ℝ) := rfl
    have hres1 : -(1e-9:ℝ) ≤ geoResidual
        (Real.sqrt ((-5413.11749016:ℝ) ^ 2 + (4960.20830485:ℝ) ^ 2)) 3177.18312508 φ := by
      have h := (abs_le.1 hres).1
      rw [hgt] at h
      linarith
    have hres2 : geoResidual (Real.sqrt ((-5413.11749016:ℝ) ^ 2 + (4960.20830485:ℝ) ^ 2))
        3177.18312508 φ ≤ (1e-9:ℝ) := by
      have h := (abs_le.1 hres).2
      rw [hgt] at h
      linarith
    have hp_le_φ : (0.4103405:ℝ) ≤ φ := by
      by_contra hlt
      push_neg at hlt
      have hstrict := geoRes_strict
        (Real.sqrt ((-5413.11749016:ℝ) ^ 2 + (4960.20830485:ℝ) ^ 2)) 3177.18312508
        φ 0.4103405 (by linarith) hlt (by linarith [hlo, hgeoLo_ge]) hcosφ hcp_pos
      linarith
    have hφ_le_q : φ ≤ 0.4103805 := by
      by_contra hlt
      push_neg at hlt
      have hstrict := geoRes_strict
        (Real.sqrt ((-5413.11749016:ℝ) ^ 2 + (4960.20830485:ℝ) ^ 2)) 3177.18312508
        0.4103805 φ (by linarith) hlt (by linarith [hhi, hgeoHi_le]) hcq_pos hcosφ
      linarith
    refine ⟨deg_of_rad φ, deg_of_rad (atan2 4960.20830485 (-5413.11749016)),
      Real.sqrt ((-5413.11749016:ℝ) ^ 2 + (4960.20830485:ℝ) ^ 2) / cos φ - nRad φ,
      heq, ?_, ?_, ?_⟩
    · have hlat_lo : (23.5019:ℝ) ≤ deg_of_rad φ := by
        unfold deg_of_rad
        rw [le_div_iff₀ hπ]
        have hh := mul_le_mul_of_nonneg_left hπ2.le (show (0:ℝ) ≤ 23.5019 by norm_num)
        linarith
      have hlat_hi : deg_of_rad φ ≤ 23.5219 := by
        unfold deg_of_rad
        rw [div_le_iff₀ hπ]
        have hh := mul_le_mul_of_nonneg_left hπ1.le (show (0:ℝ) ≤ 23.5219 by norm_num)
        linarith
      rw [abs_le]
      constructor <;> linarith
    · have hxyne2 : ¬((-5413.11749016:ℝ) = 0 ∧ (4960.20830485:ℝ) = 0) := by
        intro hc
        exact absurd hc.1 (by norm_num)
      have hθcos := cos_atan2 4960.20830485 (-5413.11749016) hxyne2
      have hθsin := sin_atan2 4960.20830485 (-5413.11749016)
      have hθIoc := atan2_mem_Ioc 4960.20830485 (-5413.11749016)
      have hθsin_pos : 0 < sin (atan2 4960.20830485 (-5413.11749016)) := by
        rw [hθsin]
        exact div_pos (by norm_num) hρpos
      have hθpos : 0 < atan2 4960.20830485 (-5413.11749016) := by
        by_contra hle
        push_neg at hle
        have := Real.sin_nonpos_of_nonnpos_of_neg_pi_le hle (le_of_lt hθIoc.1)
        linarith
      have hcθ_hi : cos (atan2 4960.20830485 (-5413.11749016))
          ≤ (-5413.11749016:ℝ) / 7342.0370054761 := by
        rw [hθcos, div_le_div_iff hρpos (by norm_num)]
        have h := mul_le_mul_of_nonpos_left hρ2
          (show (-5413.11749016:ℝ) ≤ 0 by norm_num)
        linarith
      have hcθ_lo : (-5413.11749016:ℝ) / 7342.0370054760
          ≤ cos (atan2 4960.20830485 (-5413.11749016)) := by
        rw [hθcos, div_le_div_iff (by norm_num) hρpos]
        have h := mul_le_mul_of_nonpos_left hρ1
          (show (-5413.11749016:ℝ) ≤ 0 by norm_num)
        linarith
      have hc3u1 : 4 * (0.696751467911:ℝ) ^ 3 - 3 * 0.696751467911
          ≤ cos (3 * 0.7999376) := by
        rw [Real.cos_three_mul]
        have h1 := Real.cos_le_one 0.7999376
        nlinarith [hcu11, mul_nonneg (sub_nonneg.2 h1) (sub_nonneg.2 hcu11),
          sq_nonneg (cos 0.7999376 - 0.696751467911)]
      have hc3u2 : cos (3 * 0.7999476)
          ≤ 4 * (0.696744359805:ℝ) ^ 3 - 3 * 0.696744359805 := by
        rw [Real.cos_three_mul]
        nlinarith [hcu21, hcu22, mul_nonneg (sub_nonneg.2 hcu22) (sub_nonneg.2 hcu21),
          sq_nonneg (cos 0.7999476 - 0.696744359805)]
      have hθ_ge : (3:ℝ) * 0.7999376 ≤ atan2 4960.20830485 (-5413.11749016) := by
        by_contra hlt
        push_neg at hlt
        have hmono := Real.strictAntiOn_cos
          (Set.mem_Icc.2 ⟨hθpos.le, hθIoc.2⟩)
          (Set.mem_Icc.2 ⟨by norm_num, by linarith⟩) hlt
        have hcomp : (-5413.11749016:ℝ) / 7342.0370054761
            < 4 * (0.696751467911:ℝ) ^ 3 - 3 * 0.696751467911 := by norm_num
        linarith
      have hθ_le : atan2 4960.20830485 (-5413.11749016) ≤ (3:ℝ) * 0.7999476 := by
        by_contra hlt
        push_neg at hlt
        have hmono := Real.strictAntiOn_cos
          (Set.mem_Icc.2 ⟨by norm_num, by linarith⟩)
          (Set.mem_Icc.2 ⟨hθpos.le, hθIoc.2⟩) hlt
        have hcomp : 4 * (0.696744359805:ℝ) ^ 3 - 3 * 0.696744359805
            < (-5413.11749016:ℝ) / 7342.0370054760 := by norm_num
        linarith
      have hlon_lo : (137.4901:ℝ) ≤ deg_of_rad (atan2 4960.20830485 (-5413.11749016)) := by
        unfold deg_of_rad
        rw [le_div_iff₀ hπ]
        have hh := mul_le_mul_of_nonneg_left hπ2.le (show (0:ℝ) ≤ 137.4901 by norm_num)
        linarith
      have hlon_hi : deg_of_rad (atan2 4960.20830485 (-5413.11749016)) ≤ 137.5099 := by
        unfold deg_of_rad
        rw [div_le_iff₀ hπ]
        have hh := mul_le_mul_of_nonneg_left hπ1.le (show (0:ℝ) ≤ 137.5099 by norm_num)
        linarith
      rw [abs_le]
      constructor <;> linarith
    · have hcosφ_lo : (0.916969085576:ℝ) ≤ cos φ :=
        le_trans hcq1 (Real.cos_le_cos_of_nonneg_of_le_pi (by linarith)
          (by linarith) hφ_le_q)
      have hcosφ_hi : cos φ ≤ 0.916985043256 :=
        le_trans (Real.cos_le_cos_of_nonneg_of_le_pi (by norm_num)
          (by linarith) hp_le_φ) hcp2
      have hsinφ_lo : (0.398921582593:ℝ) ≤ sin φ :=
        le_trans hsp1 (Real.sin_le_sin_of_le_of_le_pi_div_two (by linarith)
          hφhi2.le hp_le_φ)
      have hsinφ_hi : sin φ ≤ 0.398958263697 :=
        le_trans (Real.sin_le_sin_of_le_of_le_pi_div_two (by linarith)
          (by linarith) hφ_le_q) hsq2
      have hsinφsq_lo : (0.398921582593:ℝ) ^ 2 ≤ sin φ ^ 2 :=
        pow_le_pow_left₀ (by norm_num) hsinφ_lo 2
      have hsinφsq_hi : sin φ ^ 2 ≤ (0.398958263697:ℝ) ^ 2 :=
        pow_le_pow_left₀ (by linarith) hsinφ_hi 2
      have hwpos := w_lat_pos φ
      have hw_lo : (0.999467093485:ℝ) ≤ Real.sqrt (1 - e2g * sin φ ^ 2) := by
        refine (Real.le_sqrt (by norm_num) (w_lat_arg_nonneg _)).2 ?_
        have h1 := mul_le_mul_of_nonneg_left hsinφsq_hi e2g_pos.le
        have h2 : (0.999467093485:ℝ) ^ 2 ≤ 1 - e2g * (0.398958263697:ℝ) ^ 2 := by
          norm_num [e2g, flat]
        linarith
      have hw_hi : Real.sqrt (1 - e2g * sin φ ^ 2) ≤ 0.999467191500 := by
        have h1 := mul_le_mul_of_nonneg_left hsinφsq_lo e2g_pos.le
        have h2 : (1:ℝ) - e2g * (0.398921582593:ℝ) ^ 2 ≤ (0.999467191500:ℝ) ^ 2 := by
          norm_num [e2g, flat]
        exact (Real.sqrt_le_sqrt (by linarith)).trans_eq (Real.sqrt_sq (by norm_num))
      have hN_lo : R_earth / (0.999467191500:ℝ) ≤ nRad φ := by
        unfold nRad
        exact div_le_div_of_nonneg_left R_earth_pos.le hwpos hw_hi
      have hN_hi : nRad φ ≤ R_earth / (0.999467093485:ℝ) := by
        unfold nRad
        exact div_le_div_of_nonneg_left R_earth_pos.le (by norm_num) hw_lo
      have hρcos_lo : (7342.0370054760:ℝ) / 0.916985043256
          ≤ Real.sqrt ((-5413.11749016:ℝ) ^ 2 + (4960.20830485:ℝ) ^ 2) / cos φ := by
        calc (7342.0370054760:ℝ) / 0.916985043256 ≤ 7342.0370054760 / cos φ :=
            div_le_div_of_nonneg_left (by norm_num) hcosφ hcosφ_hi
          _ ≤ Real.sqrt ((-5413.11749016:ℝ) ^ 2 + (4960.20830485:ℝ) ^ 2) / cos φ := by
            rw [div_le_div_iff hcosφ hcosφ]
            exact mul_le_mul_of_nonneg_right hρ1 hcosφ.le
      have hρcos_hi : Real.sqrt ((-5413.11749016:ℝ) ^ 2 + (4960.20830485:ℝ) ^ 2) / cos φ
          ≤ (7342.0370054761:ℝ) / 0.916969085576 := by
        calc Real.sqrt ((-5413.11749016:ℝ) ^ 2 + (4960.20830485:ℝ) ^ 2) / cos φ
            ≤ 7342.0370054761 / cos φ := by
              rw [div_le_div_iff hcosφ hcosφ]
              exact mul_le_mul_of_nonneg_right hρ2 hcosφ.le
          _ ≤ (7342.0370054761:ℝ) / 0.916969085576 :=
            div_le_div_of_nonneg_left (by norm_num) (by norm_num) hcosφ_lo
      have halt_lo1 : (1625.146:ℝ)
          ≤ (7342.0370054760:ℝ) / 0.916985043256 - R_earth / (0.999467093485:ℝ) := by
        norm_num [R_earth]
      have halt_hi1 : (7342.0370054761:ℝ) / 0.916969085576 - R_earth / (0.999467191500:ℝ)
          ≤ 1625.346 := by
        norm_num [R_earth]
      rw [abs_le]
      constructor <;> linarith

theorem geodetic_roundtrip_witness :
    ∃ lat lon alt,
      ITRSToLatLonAlt ⟨-5413.11749016, 4960.20830485, 3177.18312508⟩ geo_tol
        = .ok (lat, lon, alt) ∧
      Vec3.norm (Vec3.sub (LatLonAltToITRS lat lon alt)
        ⟨-5413.11749016, 4960.20830485, 3177.18312508⟩) ≤ 1e-6 :=
  geodetic_roundtrip.1 ⟨-5413.11749016, 4960.20830485, 3177.18312508⟩
    (fun hc => absurd hc.1 (by norm_num))

end

end AstroForge
